import Mathlib

/-!
# Verification of the Ticket-Hub Message Analysis & Triage Engine

A shallow embedding, in Lean 4, of the algorithmic core of the Ticket-Hub
healthcare chatbot backend:

* `backend/services/enhancedAIService.js` — HIPAA PHI detection and
  redaction, medical symptom triage, provider recommendation, and the
  enhanced response composer;
* the NLP ai-service (`aiService.js`) — tokenization, entity extraction,
  sentiment thresholds, conversation-context store, response templates and
  the feedback store;
* `languageService.js` — pattern-based language detection and
  dictionary-substitution localization.

JavaScript regular expressions are embedded via a small ordered-choice /
greedy backtracking matcher (`reM`) over `List Char`, which mirrors the
semantics of the JS regex constructs actually used by the source patterns
(character classes, literals, ordered alternation, greedy `*`/`+`/`?` over
character classes, and the word-boundary assertion `\b` with the ASCII
`\w` of JS).  `String.prototype.replace` with a `/g` pattern is embedded
as `scanReplace`, non-global `String.prototype.match` as `firstMatchStr`.

The third-party `natural` library (Bayes classifier, Porter stemmer, AFINN
sentiment analyzer) is not part of the repository; it enters the embedding
as an explicit parameter record `NaturalLib`, so all theorems hold for
every behaviour of those library seams.  JS numbers are embedded as `ℚ`
(every numeric literal used by the source is exactly representable and no
computation here approaches float-precision boundaries).
-/

namespace TicketHub

/-! ## Character classes (JS ASCII `\w`, `\d`, `\s`, and friends) -/

/-- JS `\d`. -/
def isDigitCh (c : Char) : Bool := decide (48 ≤ c.toNat) && decide (c.toNat ≤ 57)

/-- Lower-case ASCII letter. -/
def isLowerAZ (c : Char) : Bool := decide (97 ≤ c.toNat) && decide (c.toNat ≤ 122)

/-- Upper-case ASCII letter. -/
def isUpperAZ (c : Char) : Bool := decide (65 ≤ c.toNat) && decide (c.toNat ≤ 90)

/-- ASCII letter. -/
def isLetterAZ (c : Char) : Bool := isLowerAZ c || isUpperAZ c

/-- JS `\w` = `[A-Za-z0-9_]`. -/
def isWordCh (c : Char) : Bool := isLetterAZ c || isDigitCh c || decide (c.toNat = 95)

/-- JS `\s` (the ECMAScript WhiteSpace / LineTerminator set). -/
def isWsJS (c : Char) : Bool :=
  decide (c.toNat = 32) || decide (c.toNat = 9) || decide (c.toNat = 10) ||
  decide (c.toNat = 13) || decide (c.toNat = 0xb) || decide (c.toNat = 0xc) ||
  decide (c.toNat = 0xa0) || decide (c.toNat = 0x1680) ||
  (decide (0x2000 ≤ c.toNat) && decide (c.toNat ≤ 0x200a)) ||
  decide (c.toNat = 0x2028) || decide (c.toNat = 0x2029) ||
  decide (c.toNat = 0x202f) || decide (c.toNat = 0x205f) ||
  decide (c.toNat = 0x3000) || decide (c.toNat = 0xfeff)

/-- ASCII lower-casing of one character (JS `toLowerCase`; the source only
ever lower-cases for ASCII keyword comparison). -/
def toLowerCh (c : Char) : Char :=
  if isUpperAZ c then Char.ofNat (c.toNat + 32) else c

/-- ASCII upper-casing of one character (JS `toUpperCase`). -/
def toUpperCh (c : Char) : Char :=
  if isLowerAZ c then Char.ofNat (c.toNat - 32) else c

/-- Case-insensitive character comparison (for `/i` patterns). -/
def charEqCI (a b : Char) : Bool := toLowerCh a == toLowerCh b

/-- JS `String.prototype.toLowerCase` (ASCII fragment). -/
def toLowerJS (s : String) : String := String.mk (s.data.map toLowerCh)

/-- JS `String.prototype.toUpperCase` (ASCII fragment). -/
def toUpperJS (s : String) : String := String.mk (s.data.map toUpperCh)

/-- JS `haystack.includes(needle)`: substring containment. -/
def jsIncludes (haystack needle : String) : Bool :=
  haystack.data.tails.any (fun t => needle.data.isPrefixOf t)

/-! ## A small JS-style regex engine

`RE` covers exactly the constructs used by the source's patterns.
Quantifiers only ever range over single-character classes or literal
strings in those patterns, so greedy backtracking can be implemented
directly: the continuation-passing matcher `reM` tries alternatives in
source order and quantifiers longest-first, exactly like the JS engine.
The matcher threads the previously consumed character so that the `\b`
assertion (`RE.bAssert`) can be decided: a JS word boundary holds iff
exactly one of (previous character, next character) is a `\w` character,
with string ends counting as non-word. -/

inductive RE where
  | eps : RE
  | cls (p : Char → Bool) : RE
  | lit (s : List Char) : RE
  | litCI (s : List Char) : RE
  | cat (a b : RE) : RE
  | alt (a b : RE) : RE
  | opt (a : RE) : RE
  | starCls (p : Char → Bool) : RE
  | plusCls (p : Char → Bool) : RE
  | bAssert : RE

/-- Is the optional character a JS word character (string ends are not)? -/
def isWordOpt : Option Char → Bool
  | none => false
  | some c => isWordCh c

/-- JS `\b`: exactly one side is a word character. -/
def wordBoundary (prev : Option Char) (next : Option Char) : Bool :=
  isWordOpt prev != isWordOpt next

/-- Match a literal, returning the new previous-character and remainder. -/
def litHere (eq : Char → Char → Bool) :
    List Char → Option Char → List Char → Option (Option Char × List Char)
  | [], prev, l => some (prev, l)
  | _ :: _, _, [] => none
  | p :: ps, _, c :: cs => if eq p c then litHere eq ps (some c) cs else none

/-- Greedy Kleene star over a character class, with backtracking: longer
matches are offered to the continuation first. -/
def starGo (p : Char → Bool) (prev : Option Char) (l : List Char)
    (k : Option Char → List Char → Option (Option Char × List Char)) :
    Option (Option Char × List Char) :=
  match l with
  | [] => k prev []
  | c :: cs =>
    if p c then
      match starGo p (some c) cs k with
      | some r => some r
      | none => k prev (c :: cs)
    else k prev (c :: cs)

/-- The backtracking matcher.  `reM e prev l k` attempts to match `e` at
the start of `l` (with `prev` the character just before `l`), passing the
final previous-character and remainder to the continuation `k`; ordered
choice and greedy quantifiers follow the JS preference order, so the first
`some` produced is the JS match. -/
def reM : RE → Option Char → List Char →
    (Option Char → List Char → Option (Option Char × List Char)) →
    Option (Option Char × List Char)
  | RE.eps, prev, l, k => k prev l
  | RE.cls p, _, l, k =>
    match l with
    | [] => none
    | c :: cs => if p c then k (some c) cs else none
  | RE.lit s, prev, l, k =>
    match litHere (fun a b => a == b) s prev l with
    | some (p', r) => k p' r
    | none => none
  | RE.litCI s, prev, l, k =>
    match litHere charEqCI s prev l with
    | some (p', r) => k p' r
    | none => none
  | RE.cat a b, prev, l, k => reM a prev l (fun p' r => reM b p' r k)
  | RE.alt a b, prev, l, k =>
    match reM a prev l k with
    | some r => some r
    | none => reM b prev l k
  | RE.opt a, prev, l, k =>
    match reM a prev l k with
    | some r => some r
    | none => k prev l
  | RE.starCls p, prev, l, k => starGo p prev l k
  | RE.plusCls p, prev, l, k =>
    match l with
    | [] => none
    | c :: cs => if p c then starGo p (some c) cs k else none
  | RE.bAssert, prev, l, k =>
    if wordBoundary prev l.head? then k prev l else none

/-- Attempt a match of `pat` anchored at the start of `l`; returns the
previous-character at the match end together with the unconsumed
remainder. -/
def tryMatchAt (pat : RE) (prev : Option Char) (l : List Char) :
    Option (Option Char × List Char) :=
  reM pat prev l (fun p' r => some (p', r))

/-- `regex.test(s)`-style search: does `pat` match at some position? -/
def scanExists (pat : RE) : Option Char → List Char → Bool
  | prev, [] => (tryMatchAt pat prev []).isSome
  | prev, c :: cs => (tryMatchAt pat prev (c :: cs)).isSome || scanExists pat (some c) cs

/-- Non-global `String.prototype.match`: the first (leftmost) matched
substring, if any. -/
def firstMatchStr (pat : RE) : Option Char → List Char → Option (List Char)
  | prev, [] => (tryMatchAt pat prev []).map (fun _ => [])
  | prev, c :: cs =>
    match tryMatchAt pat prev (c :: cs) with
    | some (_, r) => some ((c :: cs).take ((c :: cs).length - r.length))
    | none => firstMatchStr pat (some c) cs

/-- Fuelled `/g` match counter; the fuel (strictly decreasing, structural)
dominates the scan-position, so with fuel `l.length + 1` it is never
exhausted.  A (never occurring) empty match is defensively treated as no
match, so the result is fuel-independent for sufficient fuel. -/
def scanCountF (pat : RE) : Nat → Option Char → List Char → Nat
  | 0, _, _ => 0
  | _ + 1, prev, [] => if (tryMatchAt pat prev []).isSome then 1 else 0
  | fuel + 1, prev, c :: cs =>
    match tryMatchAt pat prev (c :: cs) with
    | some (p', r) =>
      if r.length < cs.length + 1 then 1 + scanCountF pat fuel p' r
      else 1 + scanCountF pat fuel (some c) cs
    | none => scanCountF pat fuel (some c) cs

/-- Number of matches a `/g` scan finds (non-overlapping, leftmost-first;
the source's patterns never match the empty string). -/
def scanCount (pat : RE) (prev : Option Char) (l : List Char) : Nat :=
  scanCountF pat (l.length + 1) prev l

/-- Fuelled `/g` replace; see `scanCountF` for the fuel discipline. -/
def scanReplaceF (pat : RE) (ph : List Char) : Nat → Option Char → List Char → List Char
  | 0, _, l => l
  | _ + 1, _, [] => []
  | fuel + 1, prev, c :: cs =>
    match tryMatchAt pat prev (c :: cs) with
    | some (p', r) =>
      if r.length < cs.length + 1 then ph ++ scanReplaceF pat ph fuel p' r
      else c :: scanReplaceF pat ph fuel (some c) cs
    | none => c :: scanReplaceF pat ph fuel (some c) cs

/-- `String.prototype.replace` with a `/g` pattern and a constant
replacement string `ph` (the source's patterns never match the empty
string; an empty match is defensively skipped). -/
def scanReplace (pat : RE) (ph : List Char) (prev : Option Char) (l : List Char) :
    List Char :=
  scanReplaceF pat ph (l.length + 1) prev l

/-- Sequencing a whole list of regex pieces. -/
def catList : List RE → RE
  | [] => RE.eps
  | [x] => x
  | x :: xs => RE.cat x (catList xs)

/-- Ordered alternation over a list of alternatives (as JS `(a|b|...)`). -/
def altRE : List RE → RE
  | [] => RE.cls (fun _ => false)
  | [x] => x
  | x :: xs => RE.alt x (altRE xs)

/-- Ordered case-insensitive word alternation `(w1|w2|...)` as in `/i`
patterns. -/
def wordsCI (ws : List String) : RE := altRE (ws.map (fun w => RE.litCI w.data))

/-- Ordered case-sensitive word alternation. -/
def wordsCS (ws : List String) : RE := altRE (ws.map (fun w => RE.lit w.data))

/-! ## HIPAA compliance layer (`enhancedAIService.js`, lines 24–77)

The seven PHI patterns of `hipaaComplianceCheck` and the five replacement
patterns of `redactPHI`, transcribed construct by construct. -/

/-- `\d` as a regex piece. -/
def reD : RE := RE.cls isDigitCh

/-- `\d{n}`. -/
def reDN (n : Nat) : RE := catList (List.replicate n reD)

/-- `[-.\s]?` (the optional separator in the phone and SSN patterns). -/
def reSepOpt : RE := RE.opt (RE.cls (fun c => c == '-' || c == '.' || isWsJS c))

/-- `[A-Z][a-z]+ ` — one capitalized word plus the literal space, the body
of the repeated group in the names pattern. -/
def reCapWordSp : RE :=
  catList [RE.cls isUpperAZ, RE.plusCls isLowerAZ, RE.lit [' ']]

/-- `/\b(?:[A-Z][a-z]+ ){1,2}[A-Z][a-z]+\b/` — the `names` PHI pattern
(`{1,2}` is greedy, so two repetitions are preferred). -/
def namesRE : RE :=
  catList [RE.bAssert,
    RE.alt (RE.cat reCapWordSp reCapWordSp) reCapWordSp,
    RE.cls isUpperAZ, RE.plusCls isLowerAZ, RE.bAssert]

/-- `/\b\d{3}[-.\s]?\d{3}[-.\s]?\d{4}\b/` — the `phoneNumbers` pattern. -/
def phoneRE : RE :=
  catList [RE.bAssert, reDN 3, reSepOpt, reDN 3, reSepOpt, reDN 4, RE.bAssert]

/-- `[A-Za-z0-9._%+-]` — the email local-part class. -/
def isLocalCh (c : Char) : Bool :=
  isLetterAZ c || isDigitCh c || c == '.' || c == '_' || c == '%' || c == '+' || c == '-'

/-- `[A-Za-z0-9.-]` — the email host class. -/
def isHostCh (c : Char) : Bool :=
  isLetterAZ c || isDigitCh c || c == '.' || c == '-'

/-- `/\b[A-Za-z0-9._%+-]+@[A-Za-z0-9.-]+\.[A-Za-z]{2,}\b/` — `emails`. -/
def emailRE : RE :=
  catList [RE.bAssert, RE.plusCls isLocalCh, RE.lit ['@'], RE.plusCls isHostCh,
    RE.lit ['.'], RE.cls isLetterAZ, RE.cls isLetterAZ, RE.starCls isLetterAZ,
    RE.bAssert]

/-- `/\b\d{3}[-.\s]?\d{2}[-.\s]?\d{4}\b/` — the `ssn` pattern. -/
def ssnRE : RE :=
  catList [RE.bAssert, reDN 3, reSepOpt, reDN 2, reSepOpt, reDN 4, RE.bAssert]

/-- `/\b(?:MRN|Medical Record)\s*#?\s*\d+\b/i` — `medicalRecordNumbers`. -/
def mrnRE : RE :=
  catList [RE.bAssert,
    RE.alt (RE.litCI "MRN".data) (RE.litCI "Medical Record".data),
    RE.starCls isWsJS, RE.opt (RE.cls (fun c => c == '#')), RE.starCls isWsJS,
    RE.plusCls isDigitCh, RE.bAssert]

/-- `[A-Za-z0-9\s,]` — the street-name class of the addresses pattern. -/
def isAddrCh (c : Char) : Bool :=
  isLetterAZ c || isDigitCh c || isWsJS c || c == ','

/-- The ordered street-suffix alternation of the addresses pattern. -/
def addrSuffixRE : RE :=
  wordsCI ["Avenue", "Lane", "Road", "Boulevard", "Drive", "Street",
    "Ave", "Ln", "Rd", "Blvd", "Dr", "St"]

/-- `/\b\d+\s+[A-Za-z0-9\s,]+(?:Avenue|...|St)\.?\s+(?:Apt|Unit|Suite)?\s*\d*\b/i`
— the `addresses` pattern. -/
def addrRE : RE :=
  catList [RE.bAssert, RE.plusCls isDigitCh, RE.plusCls isWsJS,
    RE.plusCls isAddrCh, addrSuffixRE, RE.opt (RE.cls (fun c => c == '.')),
    RE.plusCls isWsJS, RE.opt (wordsCI ["Apt", "Unit", "Suite"]),
    RE.starCls isWsJS, RE.starCls isDigitCh, RE.bAssert]

/-- `Mon(?:thRest)?` — one month alternative of the dates pattern. -/
def monthRE (abbr rest : String) : RE :=
  RE.cat (RE.lit abbr.data) (RE.opt (RE.lit rest.data))

/-- The ordered month alternation `Jan(?:uary)?|...|Dec(?:ember)?`
(case-sensitive, as in the source). -/
def monthsRE : RE :=
  altRE [monthRE "Jan" "uary", monthRE "Feb" "ruary", monthRE "Mar" "ch",
    monthRE "Apr" "il", RE.lit "May".data, monthRE "Jun" "e",
    monthRE "Jul" "y", monthRE "Aug" "ust", monthRE "Sep" "tember",
    monthRE "Oct" "ober", monthRE "Nov" "ember", monthRE "Dec" "ember"]

/-- `[\/\-]`. -/
def reSlashDash : RE := RE.cls (fun c => c == '/' || c == '-')

/-- `\d{1,2}` (greedy). -/
def reD12 : RE := RE.cat reD (RE.opt reD)

/-- `\d{2,4}` (greedy). -/
def reD24 : RE := catList [reD, reD, RE.opt (RE.cat reD (RE.opt reD))]

/-- The `dates` PHI pattern:
`/\b(?:(?:Jan(?:uary)?|...)\s+\d{1,2},\s+\d{4}|\d{1,2}[\/\-]\d{1,2}[\/\-]\d{2,4})\b/`. -/
def datesRE : RE :=
  catList [RE.bAssert,
    RE.alt
      (catList [monthsRE, RE.plusCls isWsJS, reD12, RE.lit [','],
        RE.plusCls isWsJS, reDN 4])
      (catList [reD12, reSlashDash, reD12, reSlashDash, reD24]),
    RE.bAssert]

/-- The `phiPatterns` table of `hipaaComplianceCheck`, in object-literal
insertion order. -/
def phiPatterns : List (String × RE) :=
  [("names", namesRE), ("phoneNumbers", phoneRE), ("emails", emailRE),
   ("ssn", ssnRE), ("medicalRecordNumbers", mrnRE),
   ("addresses", addrRE), ("dates", datesRE)]

/-- Result record of `hipaaComplianceCheck`. -/
structure PHIFinding where
  containsPHI : Bool
  detectedPHI : List (String × Nat)
  complianceRecommendations : List String
  safeToStore : Bool
  deriving Repr, DecidableEq

/-- One `forEach` step of `hipaaComplianceCheck`: a non-global
`message.match(pattern)` yields, on success, an array holding just the
first match (all groups in the source patterns are non-capturing), whose
`length` is recorded. -/
def phiStep (message : List Char) (acc : List (String × Nat) × Bool)
    (e : String × RE) : List (String × Nat) × Bool :=
  match firstMatchStr e.2 none message with
  | some m => (acc.1 ++ [(e.1, ([m] : List (List Char)).length)], true)
  | none => acc

/-- `hipaaComplianceCheck` (`enhancedAIService.js` lines 24–58). -/
def hipaaComplianceCheck (message : String) : PHIFinding :=
  let r := phiPatterns.foldl (phiStep message.data) ([], false)
  { containsPHI := r.2
    detectedPHI := r.1
    complianceRecommendations :=
      if r.2 then
        ["Detected potential PHI in message. Consider redacting or encrypting this information.",
         "Ensure proper authorization before storing or transmitting this information.",
         "Document the purpose for which this PHI is being collected."]
      else []
    safeToStore := !r.2 }

/-- `redactPHI` (`enhancedAIService.js` lines 65–77): five sequential
global replaces (phone, email, SSN, MRN, address — names and dates are
detected but never redacted, a known source asymmetry). -/
def redactPHI (message : String) : String :=
  let s1 := scanReplace phoneRE "[PHONE NUMBER]".data none message.data
  let s2 := scanReplace emailRE "[EMAIL]".data none s1
  let s3 := scanReplace ssnRE "[SSN]".data none s2
  let s4 := scanReplace mrnRE "[MEDICAL RECORD NUMBER]".data none s3
  let s5 := scanReplace addrRE "[ADDRESS]".data none s4
  String.mk s5

/-! ## The NLP ai-service (`aiService.js`)

`analyzeMessage`, the conversation-context store, the response composer
`generateAIResponse`, and the feedback store.  The `natural` library
(Bayes classifier trained from `trainingData.js`, Porter stemmer, AFINN
sentiment analyzer) is third-party code, not part of this repository; it
is embedded as the parameter record `NaturalLib`, so every theorem below
holds for an arbitrary behaviour of these external seams. -/

/-- The external `natural` library seam: `classifier.classify`,
`PorterStemmer.stem`, and `sentimentAnalyzer.getSentiment`. -/
structure NaturalLib where
  classify : String → String
  stem : String → String
  getSentiment : List String → ℚ

/-- Split into maximal runs of JS word characters, dropping separators —
modelled from the external `natural.WordTokenizer`, which splits text on
non-alphanumeric characters and discards the separators. -/
def tokenizeGo (acc : List Char) : List Char → List String
  | [] => if acc.isEmpty then [] else [String.mk acc.reverse]
  | c :: cs =>
    if isWordCh c then tokenizeGo (c :: acc) cs
    else if acc.isEmpty then tokenizeGo [] cs
    else String.mk acc.reverse :: tokenizeGo [] cs

/-- `tokenizer.tokenize`. -/
def tokenize (s : String) : List String := tokenizeGo [] s.data

/-- The per-token `dates` entity test
`/\b\d{1,2}[\/\-]\d{1,2}([\/\-]\d{2,4})?\b/` (its group is capturing in
the source, but `.test`-style matching ignores captures). -/
def dateTokRE : RE :=
  catList [RE.bAssert, reD12, reSlashDash, reD12,
    RE.opt (RE.cat reSlashDash reD24), RE.bAssert]

/-- `/\b(pill|medication|...)s?\b/i` — the `medications` token test. -/
def medTokRE : RE :=
  catList [RE.bAssert,
    wordsCI ["pill", "medication", "medicine", "prescription", "drug", "dose",
      "tablet", "capsule", "antibiotic", "inhaler", "insulin", "injection"],
    RE.opt (RE.litCI ['s']), RE.bAssert]

/-- `/\b(pain|ache|...)\w*\b/i` — the `symptoms` token test. -/
def symTokRE : RE :=
  catList [RE.bAssert,
    wordsCI ["pain", "ache", "fever", "cough", "headache", "nausea", "dizz",
      "swelling", "rash", "fatigue", "tired", "exhausted", "vomit", "diarrhea",
      "constipation", "bleed", "breath", "numb", "itch", "burn", "sore"],
    RE.starCls isWordCh, RE.bAssert]

/-- `/\b(diabet|...)\w*\b/i` — the `medicalConditions` token test. -/
def condTokRE : RE :=
  catList [RE.bAssert,
    wordsCI ["diabet", "hypertension", "asthma", "arthritis", "depression",
      "anxiety", "allerg", "cancer", "heart", "stroke", "infection", "disease",
      "disorder", "syndrome"],
    RE.starCls isWordCh, RE.bAssert]

/-- `/\b(head|chest|...)s?\b/i` — the `bodyParts` token test. -/
def bodyTokRE : RE :=
  catList [RE.bAssert,
    wordsCI ["head", "chest", "arm", "leg", "foot", "hand", "back", "neck",
      "shoulder", "knee", "ankle", "wrist", "stomach", "throat", "ear", "eye",
      "nose", "skin", "heart", "lung", "liver", "kidney"],
    RE.opt (RE.litCI ['s']), RE.bAssert]

/-- `pattern.test(token)`. -/
def tokTest (pat : RE) (tok : String) : Bool := scanExists pat none tok.data

/-- The extracted entity bag of `analyzeMessage`. -/
structure EntityBag where
  dates : List String
  medications : List String
  symptoms : List String
  medicalConditions : List String
  bodyParts : List String
  deriving Repr, DecidableEq

/-- The sentiment sub-record of `analyzeMessage`'s result. -/
structure SentimentResult where
  score : ℚ
  label : String
  isUrgent : Bool
  deriving Repr, DecidableEq

/-- The full result of `analyzeMessage`. -/
structure Analysis where
  intent : String
  entities : EntityBag
  tokens : List String
  stemmedTokens : List String
  sentiment : SentimentResult
  deriving Repr, DecidableEq

/-- The fixed urgent-term list of `analyzeMessage` (line 65). -/
def urgentTerms : List String :=
  ["emergency", "urgent", "immediately", "severe", "critical", "help", "now", "asap"]

/-- `analyzeMessage` (`aiService.js` lines 48–89). -/
def analyzeMessage (lib : NaturalLib) (message : String) : Analysis :=
  let tokens := tokenize (toLowerJS message)
  let stemmedTokens := tokens.map lib.stem
  let classification := lib.classify message
  let sentimentScore := lib.getSentiment tokens
  let sentiment :=
    if sentimentScore > mkRat 2 10 then "positive"  -- JS literal 0.2
    else if sentimentScore < mkRat (-2) 10 then "negative"  -- JS literal -0.2
    else "neutral"
  let hasUrgentTerms := tokens.any (fun t => urgentTerms.contains t)
  let isUrgent :=
    (sentiment == "negative" && decide (sentimentScore < mkRat (-5) 10)) || hasUrgentTerms
  { intent := classification
    entities :=
      { dates := tokens.filter (tokTest dateTokRE)
        medications := tokens.filter (tokTest medTokRE)
        symptoms := tokens.filter (tokTest symTokRE)
        medicalConditions := tokens.filter (tokTest condTokRE)
        bodyParts := tokens.filter (tokTest bodyTokRE) }
    tokens := tokens
    stemmedTokens := stemmedTokens
    sentiment := { score := sentimentScore, label := sentiment, isUrgent := isUrgent } }

/-! ## Medical triage (`enhancedAIService.js`, lines 219–274) -/

/-- The fixed emergency-symptom keyword list. -/
def emergencySymptoms : List String :=
  ["chest pain", "severe bleeding", "shortness of breath", "difficulty breathing",
   "stroke", "unconscious", "unresponsive", "seizure", "severe head injury",
   "suicidal", "overdose", "poisoning", "anaphylaxis", "severe allergic"]

/-- The fixed urgent-symptom keyword list. -/
def urgentSymptoms : List String :=
  ["fever", "vomiting", "dehydration", "infection", "broken bone", "fracture",
   "sprain", "moderate pain", "minor burn", "cut requiring stitches",
   "severe sore throat", "severe headache", "abdominal pain"]

/-- The result record of `performSymptomTriage`. -/
structure TriageResult where
  urgencyLevel : String
  careRecommendation : String
  timeframe : String
  detectedSymptoms : List String
  sentiment : SentimentResult
  requiresHumanReview : Bool
  deriving Repr, DecidableEq

/-- `performSymptomTriage` (`enhancedAIService.js` lines 219–274). -/
def performSymptomTriage (lib : NaturalLib) (message : String) : TriageResult :=
  let analysis := analyzeMessage lib message
  let hasEmergencySymptoms :=
    emergencySymptoms.any (fun s => jsIncludes (toLowerJS message) s)
  let hasUrgentSymptoms :=
    urgentSymptoms.any (fun s => jsIncludes (toLowerJS message) s)
  let urgencyLevel :=
    if hasEmergencySymptoms then "emergency"
    else if hasUrgentSymptoms || analysis.sentiment.isUrgent then "urgent"
    else if analysis.sentiment.score < mkRat (-3) 10 then "prompt"
    else "routine"
  let careRecommendation :=
    if hasEmergencySymptoms then
      "Please call 911 or go to the nearest emergency room immediately."
    else if hasUrgentSymptoms || analysis.sentiment.isUrgent then
      "Please seek urgent care or contact your doctor today."
    else if analysis.sentiment.score < mkRat (-3) 10 then
      "Schedule an appointment soon with your healthcare provider."
    else "Schedule a regular appointment with your healthcare provider."
  let timeframe :=
    if hasEmergencySymptoms then "immediately"
    else if hasUrgentSymptoms || analysis.sentiment.isUrgent then "today"
    else if analysis.sentiment.score < mkRat (-3) 10 then "within 1-2 days"
    else "within the next few days"
  { urgencyLevel := urgencyLevel
    careRecommendation := careRecommendation
    timeframe := timeframe
    detectedSymptoms := analysis.entities.symptoms
    sentiment := analysis.sentiment
    requiresHumanReview := urgencyLevel != "routine" }

/-! ## Language service (`languageService.js`) -/

/-- A word-list test pattern `\b(w1|w2|...)\b/i`. -/
def langWordsRE (ws : List String) : RE :=
  catList [RE.bAssert, wordsCI ws, RE.bAssert]

/-- A Unicode script-range test pattern `[lo-hi]`. -/
def scriptRE (lo hi : Nat) : RE :=
  RE.cls (fun c => lo ≤ c.toNat && c.toNat ≤ hi)

/-- `pattern.test(text)`. -/
def langTest (pat : RE) (text : String) : Bool := scanExists pat none text.data

/-- The `languagePatterns` table (name, code, patterns), in object-literal
insertion order. -/
def languagePatterns : List (String × String × List RE) :=
  [("english", "en",
     [langWordsRE ["the", "a", "an", "is", "are", "was", "were", "have", "has",
        "had", "will", "would", "can", "could", "should", "may", "might"],
      langWordsRE ["hello", "hi", "hey", "good", "thank", "please", "help",
        "need", "want", "question", "problem"]]),
   ("spanish", "es",
     [langWordsRE ["el", "la", "los", "las", "un", "una", "es", "son", "era",
        "fueron", "tiene", "tengo", "había", "será", "sería", "puede",
        "podría", "debería"],
      langWordsRE ["hola", "buenos", "gracias", "por favor", "ayuda",
        "necesito", "quiero", "pregunta", "problema"]]),
   ("french", "fr",
     [langWordsRE ["le", "la", "les", "un", "une", "est", "sont", "était",
        "ont", "avait", "sera", "serait", "peut", "pourrait", "devrait"],
      langWordsRE ["bonjour", "salut", "merci", "s'il vous plaît", "aide",
        "besoin", "veux", "question", "problème"]]),
   ("chinese", "zh", [scriptRE 0x4e00 0x9fff]),
   ("arabic", "ar", [scriptRE 0x0600 0x06ff])]

/-- `detectLanguage` (`languageService.js` lines 52–71).  The JS guard
`!text || typeof text !== 'string' || text.trim() === ''` reduces, for an
actual string argument, to all characters being whitespace. -/
def detectLanguage (text : String) : String :=
  if text.data.all isWsJS then "en"
  else
    match languagePatterns.find? (fun e =>
      let matchCount : Nat := e.2.2.countP (fun p => langTest p text)
      decide (0 < matchCount) &&
        decide ((e.2.2.length : ℚ) / 2 ≤ (matchCount : ℚ))) with
    | some e => e.2.1
    | none => "en"

/-- The `en-es` entry of `translationDictionary`, in insertion order. -/
def translationDictEnEs : List (String × String) :=
  [("appointment", "cita"), ("doctor", "médico"), ("prescription", "receta"),
   ("medication", "medicamento"), ("symptoms", "síntomas"), ("pain", "dolor"),
   ("fever", "fiebre"), ("thank you", "gracias"), ("please", "por favor"),
   ("help", "ayuda"), ("emergency", "emergencia"), ("hospital", "hospital"),
   ("insurance", "seguro"), ("billing", "facturación")]

/-- `translateText` (`languageService.js` lines 106–130): `en-es` is the
only pair in `translationDictionary`; every other pair falls through and
returns the text unchanged.  Each dictionary entry is applied as a global
case-insensitive whole-word replace `\bsource\b/gi`. -/
def translateText (text : String) (sourceLanguage targetLanguage : String) : String :=
  if sourceLanguage == targetLanguage then text
  else if sourceLanguage == "en" && targetLanguage == "es" then
    translationDictEnEs.foldl (fun acc e =>
      String.mk (scanReplace (catList [RE.bAssert, RE.litCI e.1.data, RE.bAssert])
        e.2.data none acc.data)) text
  else text

/-- `localizeResponse` (`languageService.js` lines 138–144). -/
def localizeResponse (responseText userLanguage : String) : String :=
  if userLanguage == "en" then responseText
  else translateText responseText "en" userLanguage

/-! ## Provider recommendation (`enhancedAIService.js`, lines 286–403) -/

/-- The `specialtyMap` keyword table, in object-literal insertion order. -/
def specialtyMap : List (String × String) :=
  [("chest pain", "Cardiology"), ("heart", "Cardiology"),
   ("blood pressure", "Cardiology"), ("palpitations", "Cardiology"),
   ("breathing", "Pulmonology"), ("lung", "Pulmonology"),
   ("cough", "Pulmonology"), ("asthma", "Pulmonology"),
   ("stomach", "Gastroenterology"), ("digestion", "Gastroenterology"),
   ("bowel", "Gastroenterology"), ("nausea", "Gastroenterology"),
   ("vomit", "Gastroenterology"),
   ("headache", "Neurology"), ("migraine", "Neurology"), ("dizz", "Neurology"),
   ("numbness", "Neurology"), ("seizure", "Neurology"),
   ("joint", "Orthopedics"), ("bone", "Orthopedics"), ("muscle", "Orthopedics"),
   ("back pain", "Orthopedics"), ("arthritis", "Rheumatology"),
   ("rash", "Dermatology"), ("skin", "Dermatology"), ("itch", "Dermatology"),
   ("acne", "Dermatology"),
   ("anxiety", "Psychiatry"), ("depression", "Psychiatry"),
   ("stress", "Psychiatry"), ("mood", "Psychiatry"),
   ("sleep", "Sleep Medicine"),
   ("fever", "Primary Care"), ("cold", "Primary Care"), ("flu", "Primary Care"),
   ("vaccination", "Primary Care"), ("check up", "Primary Care")]

/-- JS `Set.add`: insertion-ordered, deduplicating. -/
def addUnique (l : List String) (s : String) : List String :=
  if l.contains s then l else l ++ [s]

/-- `determineProviderTypes` (`enhancedAIService.js` lines 382–403). -/
def determineProviderTypes (specialties : List String) : List String :=
  let p1 :=
    if specialties.contains "Primary Care" then
      ["Family Medicine Physician", "Internal Medicine Physician", "Nurse Practitioner"]
    else []
  let p2 :=
    if specialties.contains "Psychiatry" || specialties.contains "Psychology" then
      ["Psychiatrist", "Psychologist", "Licensed Clinical Social Worker"]
    else []
  p1 ++ p2 ++
    (specialties.filter (fun s =>
      s != "Primary Care" && s != "Psychiatry" && s != "Psychology")).map
      (fun s => s ++ " Specialist")

/-- The result record of `recommendProviders`. -/
structure ProviderRec where
  recommendedSpecialties : List String
  providerTypes : List String
  locationBased : Option String
  message : String
  deriving Repr, DecidableEq

/-- `recommendProviders` (`enhancedAIService.js` lines 286–375). -/
def recommendProviders (message : String) (symptoms : List String)
    (location : Option String) : ProviderRec :=
  let s1 := specialtyMap.foldl (fun acc e =>
    if jsIncludes (toLowerJS message) e.1 then addUnique acc e.2 else acc) []
  let s2 := symptoms.foldl (fun acc sym =>
    specialtyMap.foldl (fun acc2 e =>
      if jsIncludes (toLowerJS sym) e.1 then addUnique acc2 e.2 else acc2) acc) s1
  let specialties := if s2.isEmpty then ["Primary Care"] else s2
  { recommendedSpecialties := specialties
    providerTypes := determineProviderTypes specialties
    locationBased := location.map (fun l => "Providers near " ++ l)
    message := "These recommendations are based on your symptoms and should be confirmed by a healthcare professional." }

/-! ## EHR context (`enhancedAIService.js`, lines 176–209) -/

/-- One medication record of the EHR patient summary. -/
structure MedRec where
  name : String
  dosage : String
  frequency : String
  deriving Repr, DecidableEq

/-- One allergy record of the EHR patient summary. -/
structure AllergyRec where
  substance : String
  severity : String
  reaction : String
  deriving Repr, DecidableEq

/-- One condition record of the EHR patient summary. -/
structure CondRec where
  name : String
  status : String
  diagnosedDate : String
  deriving Repr, DecidableEq

/-- The `patientSummary` object of EHR data. -/
structure PatientSummary where
  medications : List MedRec
  allergies : List AllergyRec
  conditions : List CondRec
  deriving Repr, DecidableEq

/-- EHR data as passed in `options.ehrData` (`patientSummary` may be
absent, which the source guards against). -/
structure EHRData where
  patientSummary : Option PatientSummary
  deriving Repr, DecidableEq

/-- `enhanceResponseWithEHRContext` (`enhancedAIService.js` lines
176–209).  Both content checks inspect `baseResponse`, while the bullet
lists are appended to the running enhanced response. -/
def enhanceResponseWithEHRContext (baseResponse : String) (ehrData : EHRData) :
    String :=
  match ehrData.patientSummary with
  | none => baseResponse
  | some ps =>
    let r1 :=
      if jsIncludes (toLowerJS baseResponse) "medication" && ps.medications.length > 0 then
        baseResponse ++ "\n\nBased on your records, I can see you're currently taking: " ++
          String.join (ps.medications.map (fun m =>
            "\n- " ++ m.name ++ " (" ++ m.dosage ++ ", " ++ m.frequency ++ ")"))
      else baseResponse
    let r2 :=
      if jsIncludes (toLowerJS baseResponse) "allerg" && ps.allergies.length > 0 then
        r1 ++ "\n\nI notice from your records that you have the following allergies: " ++
          String.join (ps.allergies.map (fun a =>
            "\n- " ++ a.substance ++ " (" ++ a.severity ++ " - " ++ a.reaction ++ ")"))
      else r1
    if ps.conditions.length > 0 &&
        (ps.conditions.filter (fun c => c.status == "active")).length > 0 then
      r2 ++ "\n\nI'm taking into account your current health conditions in this response."
    else r2

/-! ## Response composer (`aiService.js`, lines 121–254) -/

/-- The two `Math.random()` draws of `generateAIResponse`, supplied as the
already-floored indices (`Math.floor(Math.random() * 3)` and
`Math.floor(Math.random() * 2)`; every template bucket has 2 variants). -/
structure RandomChoices where
  empathyIdx : Fin 3
  templateIdx : Fin 2

/-- The three empathy phrases (lines 213–217). -/
def empathyPhrases : List String :=
  ["I understand this may be frustrating. ",
   "I'm sorry to hear you're having difficulties. ",
   "I appreciate your patience with this matter. "]

/-- The urgent-notice prefix (line 163). -/
def urgentNoticeText : String :=
  "I notice this seems urgent. I've flagged your message for priority review by our healthcare team. "

/-- `preferredLanguage || detectLanguage(message)` (JS `||`, where both
`null` and the empty string are falsy). -/
def userLanguageOf (preferredLanguage : Option String) (message : String) : String :=
  match preferredLanguage with
  | some l => if l == "" then detectLanguage message else l
  | none => detectLanguage message

/-- `analysis.tokens.slice(0, 3).join(' ')`. -/
def joinFirst3 (tokens : List String) : String :=
  String.intercalate " " (tokens.take 3)

/-- The `responses` template table (lines 167–208), keyed as in the
source; `medicalConditions` is added separately below, mirroring its
conditional insertion. -/
def responsesTable (a : Analysis) : List (String × (String × String)) :=
  let t3 := joinFirst3 a.tokens
  [("general",
    ("Thank you for your general healthcare inquiry. I understand you're asking about " ++
       t3 ++ "... A healthcare provider will review your case soon.",
     "I've noted your question about general healthcare matters. While I can provide basic information, a human healthcare provider will follow up with more specific guidance about " ++
       t3 ++ "...")),
   ("appointment",
    ("I see you have a question about appointments" ++
       (if a.entities.dates.length > 0 then
         " on " ++ String.intercalate ", " a.entities.dates else "") ++
       ". I can help with basic scheduling information, but a staff member will need to confirm any changes to your appointments.",
     "Thank you for your appointment-related query. I've logged this in our system, and a healthcare provider will assist you with scheduling" ++
       (if a.entities.dates.length > 0 then
         " for " ++ String.intercalate ", " a.entities.dates else "") ++ ".")),
   ("prescription",
    ("I understand you have a question about your " ++
       (if a.entities.medications.length > 0 then
         String.intercalate ", " a.entities.medications else "prescription") ++
       ". For patient safety, a healthcare provider will need to review your medication request.",
     "Thank you for your prescription inquiry. While I cannot provide medical advice, I've prioritized your request about " ++
       (if a.entities.medications.length > 0 then
         String.intercalate ", " a.entities.medications else "your medication") ++
       " for review by a qualified healthcare provider.")),
   ("billing",
    ("I see your question is about billing. I've recorded your concern, and a billing specialist will review your account and respond shortly.",
     "Thank you for your billing inquiry. Your financial questions are important to us, and a team member will address your concerns about " ++
       t3 ++ "... soon.")),
   ("technical",
    ("I understand you're experiencing technical difficulties with " ++ t3 ++
       "... I've logged this issue, and our technical support team will help resolve it.",
     "Thank you for reporting this technical issue. Our IT team will review your case about " ++
       t3 ++ "... and provide assistance shortly.")),
   ("symptoms",
    ("I notice you mentioned " ++ String.intercalate ", " a.entities.symptoms ++
       ". While I can't provide medical advice, a healthcare professional will review your symptoms and respond soon.",
     "Thank you for sharing information about your " ++
       String.intercalate ", " a.entities.symptoms ++
       ". A qualified healthcare provider will assess this information and follow up with you shortly.")),
   ("preventive",
    ("Thank you for your interest in preventive care. I've noted your question about " ++
       t3 ++ "... A healthcare provider will provide you with detailed preventive care information soon.",
     "I appreciate your focus on preventive healthcare. Your question about " ++ t3 ++
       "... has been logged, and a healthcare professional will follow up with personalized guidance.")),
   ("emergency",
    ("I understand you're asking about emergency care. If this is a medical emergency, please call 911 immediately. A healthcare provider will review your message as soon as possible.",
     "For emergency situations, please call 911 or go to your nearest emergency room. I've flagged your message for urgent review by our healthcare team.")),
   ("mental_health",
    ("Thank you for reaching out about mental health services. Your wellbeing is important to us, and a mental health professional will respond to your inquiry soon.",
     "I appreciate you sharing your mental health concerns. A qualified mental health provider will review your message and follow up with support options shortly.")),
   ("other",
    ("Thank you for your message. I've analyzed your request about " ++ t3 ++
       "... and a healthcare team member will respond to your specific needs soon.",
     "I've received your inquiry. While I can help with basic information, a healthcare provider will follow up with personalized assistance regarding " ++
       t3 ++ "..."))]

/-- The `medicalConditions` bucket, inserted when conditions were
detected (lines 223–228). -/
def medicalConditionsBucket (a : Analysis) : String × String :=
  ("I see you've mentioned " ++ String.intercalate ", " a.entities.medicalConditions ++
     ". A healthcare provider with expertise in this area will review your message and respond soon.",
   "Thank you for providing information about " ++
     String.intercalate ", " a.entities.medicalConditions ++
     ". This helps us direct your inquiry to the appropriate healthcare specialist.")

/-- The `other` bucket (fallback for unknown categories). -/
def otherBucket (a : Analysis) : String × String :=
  ((responsesTable a).lookup "other").getD ("", "")

/-- The prefix computation of `generateAIResponse` (lines 160–220): the
urgent notice when the sentiment is urgent, overridden by a random
empathy phrase when the sentiment is negative but not urgent. -/
def responsePre (rng : RandomChoices) (a : Analysis) : String :=
  let urgentPre0 := if a.sentiment.isUrgent then urgentNoticeText else ""
  if a.sentiment.label == "negative" && !a.sentiment.isUrgent then
    empathyPhrases.getD rng.empathyIdx.val ""
  else urgentPre0

/-- The template-bucket selection of `generateAIResponse` (lines 230–240):
emergency (intent or urgency) ≻ symptoms ≻ medical conditions ≻ the
classified category, falling back to the `other` bucket. -/
def responseBucketOf (a : Analysis) (category : String) : String × String :=
  let responseCategory := if a.intent == "" then category else a.intent
  if responseCategory == "emergency" || a.sentiment.isUrgent then
    ((responsesTable a).lookup "emergency").getD (otherBucket a)
  else if a.entities.symptoms.length > 0 then
    ((responsesTable a).lookup "symptoms").getD (otherBucket a)
  else if a.entities.medicalConditions.length > 0 then
    medicalConditionsBucket a
  else ((responsesTable a).lookup responseCategory).getD (otherBucket a)

/-- The uniform choice between the two variants of a bucket
(`Math.floor(Math.random() * categoryResponses.length)`, line 243). -/
def pickTemplate (rng : RandomChoices) (bucket : String × String) : String :=
  if rng.templateIdx.val == 0 then bucket.1 else bucket.2

/-- `generateAIResponse` (`aiService.js` lines 121–254), as the pure
response text.  The conversation-context write it also performs is the
separate `updateConversationContext` below; the `await`ed processing
delay has no observable effect on the returned string. -/
def generateAIResponseText (lib : NaturalLib) (rng : RandomChoices)
    (message category : String) (preferredLanguage : Option String) : String :=
  let userLanguage := userLanguageOf preferredLanguage message
  let analysis := analyzeMessage lib message
  let response :=
    responsePre rng analysis ++ pickTemplate rng (responseBucketOf analysis category)
  if userLanguage != "en" then localizeResponse response userLanguage
  else response

/-! ## Conversation context store (`aiService.js`, lines 96–111)

The module-level `conversationContexts` map is embedded as a function
from user id to optional context; each `updateConversationContext` call
produces the updated store.  The pushed context object is kept abstract
(the claims never inspect it), and `Date.now()` is the explicit `now`
argument. -/

/-- One per-user conversation context. -/
structure UserContext (α : Type) where
  history : List α
  lastInteraction : Int

/-- The context store. -/
def ContextStore (α : Type) : Type := String → Option (UserContext α)

/-- The store before any call. -/
def emptyContextStore {α : Type} : ContextStore α := fun _ => none

/-- `updateConversationContext` (`aiService.js` lines 96–111): create the
user's context if absent, push the entry, `shift` the oldest entry away
when the history exceeds 10, and refresh `lastInteraction`. -/
def updateConversationContext {α : Type} (store : ContextStore α)
    (userId : String) (context : α) (now : Int) : ContextStore α :=
  let uc := (store userId).getD { history := [], lastInteraction := 0 }
  let pushed := uc.history ++ [context]
  let trimmed := if pushed.length > 10 then pushed.drop 1 else pushed
  fun u => if u = userId then some { history := trimmed, lastInteraction := now }
           else store u

/-- Apply a sequence of `updateConversationContext` calls
`(userId, context, now)` to the empty store, in order. -/
def applyContextUpdates {α : Type} (ops : List (String × α × Int)) : ContextStore α :=
  ops.foldl (fun st op => updateConversationContext st op.1 op.2.1 op.2.2)
    emptyContextStore

/-- The history the store holds for a user (empty if the user is absent). -/
def historyOf {α : Type} (store : ContextStore α) (u : String) : List α :=
  match store u with
  | some uc => uc.history
  | none => []

/-- The last `n` elements of a list, in order. -/
def lastN {α : Type} (n : Nat) (l : List α) : List α := l.drop (l.length - n)

/-! ## Feedback store (`aiService.js`, lines 257–306) -/

/-- One stored feedback record. -/
structure FeedbackRecord where
  userId : String
  messageId : String
  helpful : Bool
  feedbackText : String
  timestamp : Int
  deriving Repr, DecidableEq

/-- The aggregate returned by `analyzeFeedback`. -/
structure FeedbackAnalysis where
  feedbackCount : Nat
  helpfulCount : Nat
  helpfulPercentage : ℚ
  deriving Repr, DecidableEq

/-- The `feedbackStore` JS `Map`, embedded as an insertion-ordered
association list (JS `Map.set` replaces in place on an existing key and
appends otherwise). -/
def recordFeedback (store : List (String × FeedbackRecord))
    (userId messageId : String) (helpful : Bool) (feedbackText : String)
    (now : Int) : List (String × FeedbackRecord) :=
  let key := userId ++ ":" ++ messageId
  let rcd : FeedbackRecord :=
    { userId := userId, messageId := messageId, helpful := helpful,
      feedbackText := feedbackText, timestamp := now }
  if store.any (fun e => e.1 == key) then
    store.map (fun e => if e.1 == key then (key, rcd) else e)
  else store ++ [(key, rcd)]

/-- `analyzeFeedback` (`aiService.js` lines 291–306): the returned
`helpfulPercentage` is the raw `(helpfulCount / feedbackCount) * 100`
(the `toFixed(1)` in the source only formats the log line). -/
def analyzeFeedback (store : List (String × FeedbackRecord)) : FeedbackAnalysis :=
  let feedbackCount := store.length
  let helpfulCount := (store.filter (fun e => e.2.helpful)).length
  let helpfulPercentage : ℚ :=
    if feedbackCount > 0 then (helpfulCount : ℚ) / (feedbackCount : ℚ) * 100 else 0
  { feedbackCount := feedbackCount, helpfulCount := helpfulCount,
    helpfulPercentage := helpfulPercentage }

/-- Rounding to one decimal place, as in the claim's
"rounded to one decimal". -/
def roundTo1dp (x : ℚ) : ℚ := ((round (10 * x) : ℤ) : ℚ) / 10

/-! ## Enhanced response (`enhancedAIService.js`, lines 413–465) -/

/-- The options object of `generateEnhancedAIResponse`. -/
structure EnhancedOptions where
  preferredLanguage : Option String
  ehrData : Option EHRData
  location : Option String
  voiceOutput : Bool
  voiceGender : Option String

/-- The record returned by `generateEnhancedAIResponse`; the voice
response is produced by the external text-to-speech stub and carries no
information relevant to any claim, so it is embedded as a unit marker. -/
structure EnhancedResponse where
  textResponse : String
  voiceResponse : Option Unit
  complianceCheck : PHIFinding
  triageResult : TriageResult
  requiresHumanReview : Bool
  redactedMessage : String

/-- `generateEnhancedAIResponse` (`enhancedAIService.js` lines 413–465). -/
def generateEnhancedAIResponse (lib : NaturalLib) (rng : RandomChoices)
    (message category userId : String) (options : EnhancedOptions) :
    EnhancedResponse :=
  let complianceCheck := hipaaComplianceCheck message
  let triageResult := performSymptomTriage lib message
  let baseResponse :=
    generateAIResponseText lib rng message category options.preferredLanguage
  let e1 :=
    match options.ehrData with
    | some ehr => enhanceResponseWithEHRContext baseResponse ehr
    | none => baseResponse
  let analysis := analyzeMessage lib message
  let e2 :=
    if analysis.entities.symptoms.length > 0 then
      let pr := recommendProviders message analysis.entities.symptoms options.location
      if pr.recommendedSpecialties.length > 0 then
        e1 ++ "\n\nBased on your symptoms, you might consider consulting with: " ++
          String.join (pr.recommendedSpecialties.map (fun s => "\n- " ++ s))
      else e1
    else e1
  let e3 :=
    if triageResult.urgencyLevel != "routine" then
      "[" ++ toUpperJS triageResult.urgencyLevel ++ "] " ++
        triageResult.careRecommendation ++ "\n\n" ++ e2
    else e2
  { textResponse := e3
    voiceResponse := if options.voiceOutput then some () else none
    complianceCheck := complianceCheck
    triageResult := triageResult
    requiresHumanReview :=
      triageResult.requiresHumanReview || complianceCheck.containsPHI
    redactedMessage :=
      if complianceCheck.containsPHI then redactPHI message else message }

/-! ## Concrete library seams used by witnesses

Claims quantify over messages; the external `natural` seams are
instantiated concretely when a witness needs a closed term. -/

/-- A neutral concrete instantiation of the external library seam. -/
def witnessLib : NaturalLib :=
  { classify := fun _ => "general", stem := fun s => s, getSentiment := fun _ => 0 }

/-- Concrete random draws for closed evaluations. -/
def witnessRng : RandomChoices := { empathyIdx := 0, templateIdx := 0 }

/-- Concrete options (all optional features off) for closed evaluations. -/
def witnessOpts : EnhancedOptions :=
  { preferredLanguage := some "en", ehrData := none, location := none,
    voiceOutput := false, voiceGender := none }

/-! ## C1 — triage rule order -/

/-- **C1.** For every message (and every behaviour of the external
sentiment seam), `performSymptomTriage` follows the fixed cascade: an
emergency-keyword substring of the lower-cased message forces
`urgencyLevel = "emergency"` with the call-911 recommendation and
timeframe `"immediately"`; otherwise an urgent-keyword substring or the
sentiment `isUrgent` flag forces `"urgent"`; otherwise a sentiment score
below −0.3 forces `"prompt"`; otherwise `"routine"`; and
`requiresHumanReview` holds exactly when the level is not `"routine"`. -/
theorem C1_triage_rule_order (lib : NaturalLib) (message : String) :
    ((performSymptomTriage lib message).urgencyLevel =
      if emergencySymptoms.any (fun s => jsIncludes (toLowerJS message) s) then "emergency"
      else if urgentSymptoms.any (fun s => jsIncludes (toLowerJS message) s) ||
          (analyzeMessage lib message).sentiment.isUrgent then "urgent"
      else if (analyzeMessage lib message).sentiment.score < mkRat (-3) 10 then "prompt"
      else "routine") ∧
    (emergencySymptoms.any (fun s => jsIncludes (toLowerJS message) s) = true →
      (performSymptomTriage lib message).careRecommendation =
        "Please call 911 or go to the nearest emergency room immediately." ∧
      (performSymptomTriage lib message).timeframe = "immediately") ∧
    ((performSymptomTriage lib message).requiresHumanReview = true ↔
      (performSymptomTriage lib message).urgencyLevel ≠ "routine") := by
  refine ⟨rfl, fun h => ?_, ?_⟩
  · constructor <;> simp [performSymptomTriage, h]
  · simp only [performSymptomTriage]
    simp [bne_iff_ne]

/-- Witness for C1 at concrete inputs: a message containing the emergency
keyword `"chest pain"` is triaged as an emergency, and the emergency
hypothesis is discharged by evaluation. -/
theorem C1_triage_rule_order_witness :
    (performSymptomTriage witnessLib "I have chest pain").careRecommendation =
      "Please call 911 or go to the nearest emergency room immediately." ∧
    (performSymptomTriage witnessLib "I have chest pain").timeframe = "immediately" :=
  (C1_triage_rule_order witnessLib "I have chest pain").2.1 (by decide)

/-! ## C8 — totality and purity of the analysis pipeline -/

/-- **C8.** `analyzeMessage` and `performSymptomTriage` are embedded as
total Lean functions (they are defined, with a well-formed result, for
every non-empty message and every behaviour of the external library
seam — the shallow-embedding rendering of "return a result and never
throw"): the sentiment label is always one of the three documented
labels, every extracted entity list is a sublist of the token list, and
the triage level is always one of the four documented levels. -/
theorem C8_pipeline_total (lib : NaturalLib) (message : String)
    (h : message ≠ "") :
    ((analyzeMessage lib message).sentiment.label = "positive" ∨
     (analyzeMessage lib message).sentiment.label = "neutral" ∨
     (analyzeMessage lib message).sentiment.label = "negative") ∧
    (analyzeMessage lib message).entities.dates ⊆ (analyzeMessage lib message).tokens ∧
    (analyzeMessage lib message).entities.medications ⊆ (analyzeMessage lib message).tokens ∧
    (analyzeMessage lib message).entities.symptoms ⊆ (analyzeMessage lib message).tokens ∧
    (analyzeMessage lib message).entities.medicalConditions ⊆ (analyzeMessage lib message).tokens ∧
    (analyzeMessage lib message).entities.bodyParts ⊆ (analyzeMessage lib message).tokens ∧
    ((performSymptomTriage lib message).urgencyLevel = "emergency" ∨
     (performSymptomTriage lib message).urgencyLevel = "urgent" ∨
     (performSymptomTriage lib message).urgencyLevel = "prompt" ∨
     (performSymptomTriage lib message).urgencyLevel = "routine") := by
  refine ⟨?_, ?_, ?_, ?_, ?_, ?_, ?_⟩
  · simp only [analyzeMessage]
    split
    · exact Or.inl rfl
    · split
      · exact Or.inr (Or.inr rfl)
      · exact Or.inr (Or.inl rfl)
  · exact fun x hx => (List.mem_filter.mp hx).1
  · exact fun x hx => (List.mem_filter.mp hx).1
  · exact fun x hx => (List.mem_filter.mp hx).1
  · exact fun x hx => (List.mem_filter.mp hx).1
  · exact fun x hx => (List.mem_filter.mp hx).1
  · simp only [performSymptomTriage]
    split
    · exact Or.inl rfl
    · split
      · exact Or.inr (Or.inl rfl)
      · split
        · exact Or.inr (Or.inr (Or.inl rfl))
        · exact Or.inr (Or.inr (Or.inr rfl))

/-- Witness for C8 at a concrete non-empty message. -/
theorem C8_pipeline_total_witness :
    "hello" ≠ "" ∧
    ((analyzeMessage witnessLib "hello").sentiment.label = "positive" ∨
     (analyzeMessage witnessLib "hello").sentiment.label = "neutral" ∨
     (analyzeMessage witnessLib "hello").sentiment.label = "negative") :=
  ⟨by decide, (C8_pipeline_total witnessLib "hello" (by decide)).1⟩

/-! ## C2 — shape of the PHI compliance check -/

/-- The accumulating `forEach` of `hipaaComplianceCheck`, characterized:
the detected-PHI table lists exactly the matching categories, each with
value 1 (the length of the one-element non-global match array), and the
flag records whether any pattern matched. -/
theorem phiFold_characterization (msg : List Char) (ps : List (String × RE))
    (acc : List (String × Nat)) (b : Bool) :
    ps.foldl (phiStep msg) (acc, b) =
      (acc ++ (ps.filter (fun e => (firstMatchStr e.2 none msg).isSome)).map
          (fun e => (e.1, 1)),
       b || ps.any (fun e => (firstMatchStr e.2 none msg).isSome)) := by
  induction ps generalizing acc b with
  | nil => simp
  | cons e ps ih =>
    simp only [List.foldl_cons, List.filter_cons, List.any_cons, phiStep]
    cases hm : firstMatchStr e.2 none msg with
    | some m => simp [hm, ih]
    | none => simp [hm, ih]

/-- **C2 (amended).** For every message, `containsPHI` holds iff at least
one of the seven PHI patterns matches; every matching category appears in
`detectedPHI` — but always with value 1, the length of the one-element
array returned by the non-global `String.match` (all groups are
non-capturing), not the number of occurrences of the pattern in the
message; and `safeToStore` is the negation of `containsPHI`. -/
theorem C2_hipaa_check_shape (message : String) :
    (hipaaComplianceCheck message).containsPHI =
      phiPatterns.any (fun e => (firstMatchStr e.2 none message.data).isSome) ∧
    (hipaaComplianceCheck message).detectedPHI =
      (phiPatterns.filter (fun e => (firstMatchStr e.2 none message.data).isSome)).map
        (fun e => (e.1, 1)) ∧
    (hipaaComplianceCheck message).safeToStore =
      !(hipaaComplianceCheck message).containsPHI := by
  refine ⟨?_, ?_, ?_⟩ <;>
    simp [hipaaComplianceCheck, phiFold_characterization]

/-- **C2 counterexample.** The claim says a matching category is reported
with the count of regex matches of that pattern in the message.  In the
message `"My SSN is 123-45-6789 or 987-65-4321"` the SSN pattern has two
matches, but `hipaaComplianceCheck` reports `ssn ↦ 1`: the source calls
the non-global `message.match(pattern)`, which only ever yields the first
match. -/
theorem C2_count_counterexample :
    (hipaaComplianceCheck "My SSN is 123-45-6789 or 987-65-4321").detectedPHI =
      [("ssn", 1)] ∧
    scanCount ssnRE none ("My SSN is 123-45-6789 or 987-65-4321").data = 2 ∧
    (1 : Nat) ≠ 2 := by
  refine ⟨by decide, by decide, by decide⟩

/-! ## C4 — the SSN scenario -/

/-- **C4.** On the input `"My SSN is 123-45-6789, please help"` the
compliance check reports PHI with `detectedPHI.ssn = 1` (and no other
category), and `redactPHI` replaces exactly the SSN substring with
`[SSN]`, leaving the rest of the message unchanged. -/
theorem C4_ssn_scenario :
    (hipaaComplianceCheck "My SSN is 123-45-6789, please help").containsPHI = true ∧
    (hipaaComplianceCheck "My SSN is 123-45-6789, please help").detectedPHI =
      [("ssn", 1)] ∧
    redactPHI "My SSN is 123-45-6789, please help" = "My SSN is [SSN], please help" := by
  refine ⟨by decide, by decide, by decide⟩

/-! ## C10 — human review on PHI -/

/-- **C10.** The enhanced response's `requiresHumanReview` is exactly the
disjunction of the triage flag and PHI detection; in particular a message
whose triage level is routine is still flagged whenever PHI is
detected. -/
theorem C10_human_review_or_phi (lib : NaturalLib) (rng : RandomChoices)
    (message category userId : String) (options : EnhancedOptions) :
    (generateEnhancedAIResponse lib rng message category userId options).requiresHumanReview =
      ((performSymptomTriage lib message).requiresHumanReview ||
        (hipaaComplianceCheck message).containsPHI) ∧
    ((performSymptomTriage lib message).urgencyLevel = "routine" →
      (hipaaComplianceCheck message).containsPHI = true →
      (generateEnhancedAIResponse lib rng message category userId
          options).requiresHumanReview = true) := by
  refine ⟨rfl, fun _ h2 => ?_⟩
  simp [generateEnhancedAIResponse, h2]

/-- Witness for C10: a routine-triaged message containing an SSN is
flagged for human review. -/
theorem C10_human_review_or_phi_witness :
    (performSymptomTriage witnessLib "My SSN is 123-45-6789").urgencyLevel = "routine" ∧
    (hipaaComplianceCheck "My SSN is 123-45-6789").containsPHI = true ∧
    (generateEnhancedAIResponse witnessLib witnessRng "My SSN is 123-45-6789"
        "general" "u1" witnessOpts).requiresHumanReview = true :=
  ⟨by decide, by decide,
    (C10_human_review_or_phi witnessLib witnessRng "My SSN is 123-45-6789"
      "general" "u1" witnessOpts).2 (by decide) (by decide)⟩

/-! ## C5 — bounded conversation history -/

/-- One store update, seen through `historyOf`: the touched user's history
is the pushed history, trimmed to the 10 most recent entries. -/
theorem historyOf_update {α : Type} (store : ContextStore α) (userId : String)
    (c : α) (now : Int) (u : String) :
    historyOf (updateConversationContext store userId c now) u =
      if u = userId then
        (if (historyOf store userId ++ [c]).length > 10 then
          (historyOf store userId ++ [c]).drop 1
        else historyOf store userId ++ [c])
      else historyOf store u := by
  by_cases h : u = userId
  · simp only [historyOf, updateConversationContext, if_pos h]
    cases store userId <;> simp
  · simp only [historyOf, updateConversationContext, if_neg h]

/-- Trimming after a push computes the last-10 window. -/
theorem lastN_step {α : Type} (L : List α) (c : α) :
    (if (lastN 10 L ++ [c]).length > 10 then (lastN 10 L ++ [c]).drop 1
     else lastN 10 L ++ [c]) = lastN 10 (L ++ [c]) := by
  by_cases h : 10 ≤ L.length
  · rw [if_pos (by simp [lastN]; omega)]
    simp only [lastN, List.length_append, List.length_singleton]
    rw [List.drop_append_of_le_length (by simp; omega),
      List.drop_append_of_le_length (by omega), List.drop_drop]
    congr 2
    omega
  · rw [if_neg (by simp [lastN]; omega)]
    simp only [lastN, List.length_append, List.length_singleton]
    rw [Nat.sub_eq_zero_of_le (by omega), Nat.sub_eq_zero_of_le (by omega)]
    simp

/-- The store history after any sequence of updates is exactly the last-10
window of that user's own pushed entries, in arrival order. -/
theorem historyOf_applyContextUpdates {α : Type} (ops : List (String × α × Int)) :
    ∀ u, historyOf (applyContextUpdates ops) u =
      lastN 10 ((ops.filter (fun o => o.1 == u)).map (fun o => o.2.1)) := by
  induction ops using List.reverseRecOn with
  | nil =>
    intro u
    simp [applyContextUpdates, historyOf, emptyContextStore, lastN]
  | append_singleton ops op ih =>
    intro u
    have happ : applyContextUpdates (ops ++ [op]) =
        updateConversationContext (applyContextUpdates ops) op.1 op.2.1 op.2.2 := by
      simp [applyContextUpdates, List.foldl_append]
    rw [happ, historyOf_update]
    by_cases h : u = op.1
    · subst h
      rw [if_pos rfl, ih op.1]
      have hf : (ops ++ [op]).filter (fun o => o.1 == op.1) =
          ops.filter (fun o => o.1 == op.1) ++ [op] := by
        simp [List.filter_append]
      rw [hf, List.map_append, List.map_singleton, lastN_step]
    · rw [if_neg h]
      have hf : (ops ++ [op]).filter (fun o => o.1 == u) =
          ops.filter (fun o => o.1 == u) := by
        have hne : (op.1 == u) = false := by
          simp only [beq_eq_false_iff_ne]
          exact fun hc => h hc.symm
        simp [List.filter_append, hne]
      rw [hf, ih u]

/-- **C5.** Starting from the empty store, after any sequence of
`updateConversationContext` calls every user's stored history has length
at most 10 and consists of exactly the 10 most recent entries pushed for
that user, in arrival order (so an 11th push evicts the oldest). -/
theorem C5_context_history_bound {α : Type} (ops : List (String × α × Int))
    (u : String) :
    (historyOf (applyContextUpdates ops) u).length ≤ 10 ∧
    historyOf (applyContextUpdates ops) u =
      lastN 10 ((ops.filter (fun o => o.1 == u)).map (fun o => o.2.1)) := by
  refine ⟨?_, historyOf_applyContextUpdates ops u⟩
  rw [historyOf_applyContextUpdates ops u]
  simp only [lastN, List.length_drop]
  omega

/-! ## C7 — feedback aggregation -/

/-- **C7.** After recording exactly three feedback entries with pairwise
distinct `userId:messageId` keys, two of them marked helpful,
`analyzeFeedback` returns the raw percentage `200/3`
(= 66.666…), whose value rounded to one decimal is `66.7`. -/
theorem C7_feedback_percentage (u1 m1 u2 m2 u3 m3 : String)
    (h1 h2 h3 : Bool) (f1 f2 f3 : String) (t1 t2 t3 : Int)
    (hk12 : u1 ++ ":" ++ m1 ≠ u2 ++ ":" ++ m2)
    (hk13 : u1 ++ ":" ++ m1 ≠ u3 ++ ":" ++ m3)
    (hk23 : u2 ++ ":" ++ m2 ≠ u3 ++ ":" ++ m3)
    (hh : (if h1 then (1 : Nat) else 0) + (if h2 then 1 else 0) +
      (if h3 then 1 else 0) = 2) :
    (analyzeFeedback (recordFeedback (recordFeedback (recordFeedback []
        u1 m1 h1 f1 t1) u2 m2 h2 f2 t2) u3 m3 h3 f3 t3)).feedbackCount = 3 ∧
    (analyzeFeedback (recordFeedback (recordFeedback (recordFeedback []
        u1 m1 h1 f1 t1) u2 m2 h2 f2 t2) u3 m3 h3 f3 t3)).helpfulPercentage = 200/3 ∧
    roundTo1dp (analyzeFeedback (recordFeedback (recordFeedback (recordFeedback []
        u1 m1 h1 f1 t1) u2 m2 h2 f2 t2) u3 m3 h3 f3 t3)).helpfulPercentage =
      667/10 := by
  have hb12 : ((u1 ++ ":" ++ m1) == (u2 ++ ":" ++ m2)) = false := by
    simpa only [beq_eq_false_iff_ne] using hk12
  have hb13 : ((u1 ++ ":" ++ m1) == (u3 ++ ":" ++ m3)) = false := by
    simpa only [beq_eq_false_iff_ne] using hk13
  have hb23 : ((u2 ++ ":" ++ m2) == (u3 ++ ":" ++ m3)) = false := by
    simpa only [beq_eq_false_iff_ne] using hk23
  have hst : recordFeedback (recordFeedback (recordFeedback []
      u1 m1 h1 f1 t1) u2 m2 h2 f2 t2) u3 m3 h3 f3 t3 =
      [(u1 ++ ":" ++ m1, ⟨u1, m1, h1, f1, t1⟩),
       (u2 ++ ":" ++ m2, ⟨u2, m2, h2, f2, t2⟩),
       (u3 ++ ":" ++ m3, ⟨u3, m3, h3, f3, t3⟩)] := by
    simp [recordFeedback, hb12, hb13, hb23]
  rw [hst]
  have hcount : ((([(u1 ++ ":" ++ m1, (⟨u1, m1, h1, f1, t1⟩ : FeedbackRecord)),
      (u2 ++ ":" ++ m2, ⟨u2, m2, h2, f2, t2⟩),
      (u3 ++ ":" ++ m3, ⟨u3, m3, h3, f3, t3⟩)] :
        List (String × FeedbackRecord)).filter (fun e => e.2.helpful)).length) = 2 := by
    cases h1 <;> cases h2 <;> cases h3 <;> simp_all [List.filter]
  refine ⟨by simp [analyzeFeedback], ?_, ?_⟩
  · simp only [analyzeFeedback, List.length_cons, List.length_nil, hcount]
    norm_num
  · simp only [analyzeFeedback, List.length_cons, List.length_nil, hcount]
    norm_num [roundTo1dp, round_eq]

/-- Witness for C7 at three concrete records with two helpful marks. -/
theorem C7_feedback_percentage_witness :
    ("a" ++ ":" ++ "1" ≠ "a" ++ ":" ++ "2") ∧
    (analyzeFeedback (recordFeedback (recordFeedback (recordFeedback []
        "a" "1" true "" 0) "a" "2" true "" 0) "a" "3" false "" 0)).helpfulPercentage =
      200/3 :=
  ⟨by decide,
    (C7_feedback_percentage "a" "1" "a" "2" "a" "3" true true false "" "" "" 0 0 0
      (by decide) (by decide) (by decide) (by decide)).2.1⟩

/-! ## C9 — language detection -/

/-- The claim's characterization of `detectLanguage`: the code of the
first language, in the fixed iteration order English, Spanish, French,
Chinese, Arabic, whose pattern-match count is at least half of that
language's pattern count — defaulting to `"en"` when no language reaches
the threshold. -/
def specFirstLanguage (text : String) : String :=
  match languagePatterns.find? (fun e =>
    decide ((e.2.2.length : ℚ) / 2 ≤ (e.2.2.countP (fun p => langTest p text) : ℚ))) with
  | some e => e.2.1
  | none => "en"

/-- A JS whitespace character is not a JS word character. -/
theorem isWordCh_of_ws {c : Char} (hc : isWsJS c = true) : isWordCh c = false := by
  simp only [isWsJS, Bool.or_eq_true, Bool.and_eq_true, decide_eq_true_eq] at hc
  simp only [isWordCh, isLetterAZ, isLowerAZ, isUpperAZ, isDigitCh,
    Bool.or_eq_false_iff, Bool.and_eq_false_iff, decide_eq_false_iff_not]
  omega

/-- A pattern that begins with `\b` cannot match at a position where both
the previous character and the text are non-word (in particular inside
all-whitespace text). -/
theorem tryMatchAt_bAssert_ws (r : RE) (prev : Option Char) (l : List Char)
    (hprev : isWordOpt prev = false) (hl : ∀ c ∈ l, isWsJS c = true) :
    tryMatchAt (RE.cat RE.bAssert r) prev l = none := by
  have hhead : isWordOpt l.head? = false := by
    cases l with
    | nil => rfl
    | cons c cs =>
      simpa [isWordOpt] using isWordCh_of_ws (hl c (by simp))
  simp [tryMatchAt, reM, wordBoundary, hprev, hhead]

/-- No `\b`-headed pattern matches anywhere in all-whitespace text. -/
theorem scanExists_bAssert_ws (r : RE) (l : List Char) (prev : Option Char)
    (hprev : isWordOpt prev = false) (hl : ∀ c ∈ l, isWsJS c = true) :
    scanExists (RE.cat RE.bAssert r) prev l = false := by
  induction l generalizing prev with
  | nil =>
    simp only [scanExists]
    rw [tryMatchAt_bAssert_ws r prev [] hprev hl]
    rfl
  | cons c cs ih =>
    have hc := hl c (by simp)
    simp only [scanExists, Bool.or_eq_false_iff]
    refine ⟨?_, ?_⟩
    · rw [tryMatchAt_bAssert_ws r prev (c :: cs) hprev hl]
      rfl
    · exact ih (some c) (by simpa [isWordOpt] using isWordCh_of_ws hc)
        (fun d hd => hl d (by simp [hd]))

/-- A single-class pattern does not match when no character satisfies the
class. -/
theorem scanExists_cls_false (p : Char → Bool) (l : List Char) (prev : Option Char)
    (hl : ∀ c ∈ l, p c = false) :
    scanExists (RE.cls p) prev l = false := by
  induction l generalizing prev with
  | nil => simp [scanExists, tryMatchAt, reM]
  | cons c cs ih =>
    simp only [scanExists, Bool.or_eq_false_iff]
    exact ⟨by simp [tryMatchAt, reM, hl c (by simp)],
      ih (some c) (fun d hd => hl d (by simp [hd]))⟩

/-- On all-whitespace text every language pattern test is false. -/
theorem langTest_ws_false (text : String) (hws : ∀ c ∈ text.data, isWsJS c = true)
    (e : String × String × List RE) (he : e ∈ languagePatterns) :
    ∀ p ∈ e.2.2, langTest p text = false := by
  have hword : ∀ ws : List String, langTest (langWordsRE ws) text = false := by
    intro ws
    simp only [langTest, langWordsRE, catList]
    exact scanExists_bAssert_ws _ _ none rfl hws
  have hzh : langTest (scriptRE 0x4e00 0x9fff) text = false := by
    simp only [langTest, scriptRE]
    refine scanExists_cls_false _ _ none (fun c hc => ?_)
    have := hws c hc
    simp only [isWsJS, Bool.or_eq_true, Bool.and_eq_true, decide_eq_true_eq] at this
    simp only [Bool.and_eq_false_iff, decide_eq_false_iff_not]
    omega
  have har : langTest (scriptRE 0x0600 0x06ff) text = false := by
    simp only [langTest, scriptRE]
    refine scanExists_cls_false _ _ none (fun c hc => ?_)
    have := hws c hc
    simp only [isWsJS, Bool.or_eq_true, Bool.and_eq_true, decide_eq_true_eq] at this
    simp only [Bool.and_eq_false_iff, decide_eq_false_iff_not]
    omega
  fin_cases he <;> intro p hp <;> fin_cases hp <;>
    first
      | exact hword _
      | exact hzh
      | exact har

/-- Pointwise-equal predicates find the same element. -/
theorem find?_congr_pred {α : Type} (p q : α → Bool) (l : List α)
    (h : ∀ a ∈ l, p a = q a) : l.find? p = l.find? q := by
  induction l with
  | nil => rfl
  | cons a l ih =>
    simp only [List.find?]
    rw [h a (by simp)]
    cases q a with
    | true => rfl
    | false => exact ih (fun a ha => h a (by simp [ha]))

/-- The source's extra `matchCount > 0` conjunct is redundant once the
half-count threshold is met (for a non-empty pattern list). -/
theorem count_cond_redundant (len mc : Nat) (hl : 0 < len) :
    (decide (0 < mc) && decide ((len : ℚ) / 2 ≤ (mc : ℚ))) =
      decide ((len : ℚ) / 2 ≤ (mc : ℚ)) := by
  rcases Nat.eq_zero_or_pos mc with h | h
  · subst h
    have h2 : ¬ ((len : ℚ) / 2 ≤ ((0 : Nat) : ℚ)) := by
      rw [not_le]
      have hq : (0 : ℚ) < (len : ℚ) := by exact_mod_cast hl
      push_cast
      linarith
    rw [decide_eq_false h2]
    simp
  · simp [h]

/-- **C9.** `detectLanguage` returns `"en"` on the empty string, and on
every text it returns the code of the first language (in the order
English, Spanish, French, Chinese, Arabic) whose pattern-match count
reaches half that language's pattern count, defaulting to `"en"`. -/
theorem C9_detect_language (text : String) :
    detectLanguage "" = "en" ∧ detectLanguage text = specFirstLanguage text := by
  refine ⟨rfl, ?_⟩
  by_cases hws : text.data.all isWsJS
  · have hws' : ∀ c ∈ text.data, isWsJS c = true := by
      simpa [List.all_eq_true] using hws
    have hzero : ∀ e ∈ languagePatterns,
        (e.2.2.countP (fun p => langTest p text)) = 0 := by
      intro e he
      have := langTest_ws_false text hws' e he
      simp only [List.countP_eq_zero]
      intro p hp
      simp [this p hp]
    rw [detectLanguage, if_pos hws, specFirstLanguage]
    have hnone : languagePatterns.find? (fun e =>
        decide ((e.2.2.length : ℚ) / 2 ≤ (e.2.2.countP (fun p => langTest p text) : ℚ))) =
        none := by
      rw [List.find?_eq_none]
      intro e he
      rw [hzero e he]
      simp only [decide_eq_true_eq]
      intro hcontra
      have hlpos : 0 < e.2.2.length := by fin_cases he <;> norm_num
      have : (0 : ℚ) < (e.2.2.length : ℚ) / 2 := by positivity
      push_cast at hcontra
      linarith
    rw [hnone]
  · rw [detectLanguage, if_neg hws, specFirstLanguage]
    have hfind : languagePatterns.find? (fun e =>
        let matchCount : Nat := e.2.2.countP (fun p => langTest p text)
        decide (0 < matchCount) &&
          decide ((e.2.2.length : ℚ) / 2 ≤ (matchCount : ℚ))) =
        languagePatterns.find? (fun e =>
          decide ((e.2.2.length : ℚ) / 2 ≤
            (e.2.2.countP (fun p => langTest p text) : ℚ))) := by
      refine find?_congr_pred _ _ _ (fun e he => ?_)
      have hlpos : 0 < e.2.2.length := by fin_cases he <;> norm_num
      exact count_cond_redundant e.2.2.length
        (e.2.2.countP (fun p => langTest p text)) hlpos
    rw [hfind]

/-! ## C6 — response prefixes -/

/-- An `if` that possibly appends to a string that already extends `b`
still extends `b`. -/
theorem exists_append_of_if (b r y : String) (c : Prop) [Decidable c]
    (h : ∃ s, r = b ++ s) : ∃ s, (if c then r ++ y else r) = b ++ s := by
  obtain ⟨s, hs⟩ := h
  by_cases hc : c
  · exact ⟨s ++ y, by rw [if_pos hc, hs, String.append_assoc]⟩
  · exact ⟨s, by rw [if_neg hc, hs]⟩

/-- As `exists_append_of_if`, for a branch appending two pieces. -/
theorem exists_append_of_if2 (b r y z : String) (c : Prop) [Decidable c]
    (h : ∃ s, r = b ++ s) : ∃ s, (if c then r ++ y ++ z else r) = b ++ s := by
  obtain ⟨s, hs⟩ := h
  by_cases hc : c
  · exact ⟨s ++ y ++ z, by rw [if_pos hc, hs]; simp [String.append_assoc]⟩
  · exact ⟨s, by rw [if_neg hc, hs]⟩

/-- EHR enhancement only ever appends to the base response. -/
theorem enhance_append (b : String) (e : EHRData) :
    ∃ s, enhanceResponseWithEHRContext b e = b ++ s := by
  obtain ⟨ps⟩ := e
  cases ps with
  | none => exact ⟨"", (String.append_empty b).symm⟩
  | some ps =>
    simp only [enhanceResponseWithEHRContext]
    apply exists_append_of_if
    apply exists_append_of_if2
    apply exists_append_of_if2
    exact ⟨"", (String.append_empty b).symm⟩

/-- `generateAIResponse` always localizes the prefixed template (the
`userLanguage == "en"` branch coincides with a trivial localization). -/
theorem generateAIResponseText_eq_localize (lib : NaturalLib) (rng : RandomChoices)
    (message category : String) (preferredLanguage : Option String) :
    generateAIResponseText lib rng message category preferredLanguage =
      localizeResponse
        (responsePre rng (analyzeMessage lib message) ++
          pickTemplate rng (responseBucketOf (analyzeMessage lib message) category))
        (userLanguageOf preferredLanguage message) := by
  simp only [generateAIResponseText]
  by_cases h : userLanguageOf preferredLanguage message = "en"
  · rw [if_neg (by simp [h]), h, localizeResponse, if_pos (by simp)]
  · rw [if_pos (by simpa using h)]

/-- **C6 (amended).** For every input, the composed `textResponse` is the
urgency prefix `"[LEVEL] <recommendation>\n\n"` — present exactly when the
triage level is not routine — prepended to the localized concatenation of
the sentiment prefix (`responsePre`: one of the 3 empathy phrases exactly
when sentiment is negative but not urgent, the urgent notice when urgent,
empty otherwise) with the selected template, followed by the appended EHR
and provider-recommendation suffixes.  The two prefix kinds are **not**
mutually exclusive: when both conditions hold, both appear, with the
urgency prefix outermost. -/
theorem C6_prefix_composition (lib : NaturalLib) (rng : RandomChoices)
    (message category userId : String) (options : EnhancedOptions) :
    responsePre rng (analyzeMessage lib message) =
      (if (analyzeMessage lib message).sentiment.label == "negative" &&
          !(analyzeMessage lib message).sentiment.isUrgent then
        empathyPhrases.getD rng.empathyIdx.val ""
      else if (analyzeMessage lib message).sentiment.isUrgent then urgentNoticeText
      else "") ∧
    ∃ sfx : String,
      (generateEnhancedAIResponse lib rng message category userId options).textResponse =
        (if (performSymptomTriage lib message).urgencyLevel != "routine" then
          "[" ++ toUpperJS (performSymptomTriage lib message).urgencyLevel ++ "] " ++
            (performSymptomTriage lib message).careRecommendation ++ "\n\n"
        else "") ++
        (localizeResponse
          (responsePre rng (analyzeMessage lib message) ++
            pickTemplate rng (responseBucketOf (analyzeMessage lib message) category))
          (userLanguageOf options.preferredLanguage message) ++ sfx) := by
  refine ⟨rfl, ?_⟩
  simp only [generateEnhancedAIResponse]
  have h1 : ∃ s, (match options.ehrData with
      | some ehr => enhanceResponseWithEHRContext
          (generateAIResponseText lib rng message category options.preferredLanguage) ehr
      | none => generateAIResponseText lib rng message category options.preferredLanguage) =
      generateAIResponseText lib rng message category options.preferredLanguage ++ s := by
    cases options.ehrData with
    | some ehr => exact enhance_append _ ehr
    | none => exact ⟨"", (String.append_empty _).symm⟩
  obtain ⟨s1, hs1⟩ := h1
  rw [hs1]
  have h2 : ∃ s,
      (if (analyzeMessage lib message).entities.symptoms.length > 0 then
        (if (recommendProviders message (analyzeMessage lib message).entities.symptoms
              options.location).recommendedSpecialties.length > 0 then
          generateAIResponseText lib rng message category options.preferredLanguage ++ s1 ++
            "\n\nBased on your symptoms, you might consider consulting with: " ++
            String.join ((recommendProviders message
              (analyzeMessage lib message).entities.symptoms
              options.location).recommendedSpecialties.map (fun s => "\n- " ++ s))
        else generateAIResponseText lib rng message category options.preferredLanguage ++ s1)
      else generateAIResponseText lib rng message category options.preferredLanguage ++ s1) =
      generateAIResponseText lib rng message category options.preferredLanguage ++ s := by
    by_cases hsym : (analyzeMessage lib message).entities.symptoms.length > 0
    · rw [if_pos hsym]
      apply exists_append_of_if2
      exact ⟨s1, rfl⟩
    · rw [if_neg hsym]
      exact ⟨s1, rfl⟩
  obtain ⟨s2, hs2⟩ := h2
  rw [hs2, generateAIResponseText_eq_localize]
  by_cases hurg : (performSymptomTriage lib message).urgencyLevel != "routine"
  · rw [if_pos hurg, if_pos hurg]
    exact ⟨s2, rfl⟩
  · rw [if_neg hurg, if_neg hurg]
    exact ⟨s2, (String.empty_append _).symm⟩

/-- The external-seam instantiation for the C6 counterexample: the
classifier labels the message `billing` and the AFINN analyzer scores its
tokens −0.4 (negative but not past the −0.5 urgency threshold, and below
the −0.3 prompt-triage threshold). -/
def cexLib : NaturalLib :=
  { classify := fun _ => "billing", stem := fun s => s,
    getSentiment := fun _ => mkRat (-4) 10 }

set_option maxRecDepth 8000 in
/-- **C6 counterexample.** The claim says the empathy prefix and the
urgency prefix never both appear.  On the message
`"i am sad about my billing problem"` (negative but not urgent sentiment,
no emergency/urgent keyword, score below −0.3) the composed response
carries the `[PROMPT]` urgency prefix **and** the empathy phrase
immediately after it. -/
theorem C6_both_prefixes_counterexample :
    (generateEnhancedAIResponse cexLib witnessRng "i am sad about my billing problem"
        "billing" "u1" witnessOpts).textResponse =
      "[PROMPT] Schedule an appointment soon with your healthcare provider.\n\n" ++
        ("I understand this may be frustrating. " ++
          "I see your question is about billing. I've recorded your concern, and a billing specialist will review your account and respond shortly.") ∧
    (performSymptomTriage cexLib "i am sad about my billing problem").urgencyLevel =
      "prompt" ∧
    (analyzeMessage cexLib "i am sad about my billing problem").sentiment.label =
      "negative" ∧
    (analyzeMessage cexLib "i am sad about my billing problem").sentiment.isUrgent =
      false := by
  refine ⟨by decide, by decide, by decide, by decide⟩

/-! ## C3 — idempotence of `redactPHI`

The proof goes through a relational match semantics `REMatch` for the
regex engine.  `REMatch re prev m p' next` states that `re` can match
exactly the characters `m`, arriving with previous character `prev`,
ending with previous character `p'`, when the character following the
match is `next` (needed for the trailing `\b`).  The continuation-passing
matcher `reM` is proved sound and complete for this relation, and
`scanReplace` is characterized by the relation `Repl`.  Idempotence then
follows from a transfer argument: all five redaction patterns begin and
end in `\b`, every match of them contains a digit or `'@'` and avoids the
bracket characters, and all five replacement placeholders are
bracket-delimited with digit-free, `'@'`-free interiors; hence a match in
the replaced text could always be transferred back to a match in the text
being scanned — which the scan had already ruled out. -/

/-- The previous-character after consuming `m` (the incoming one if `m`
is empty). -/
def lastOpt (prev : Option Char) (m : List Char) : Option Char :=
  match m.getLast? with
  | some c => some c
  | none => prev

/-- The first character of `m ++ rest` when `rest.head? = next`. -/
def nextOf (m : List Char) (next : Option Char) : Option Char :=
  match m with
  | [] => next
  | c :: _ => some c

/-- Relational semantics of literal matching with a character
comparison. -/
inductive LitM (eq : Char → Char → Bool) : List Char → Option Char → List Char → Option Char → Prop where
  | nil (prev) : LitM eq [] prev [] prev
  | cons {a as prev c m p'} : eq a c = true → LitM eq as (some c) m p' →
      LitM eq (a :: as) prev (c :: m) p'

/-- Relational match semantics of the regex engine.  `next` is the
character following the matched region (`none` at end of text); the
trailing-context dependency of a match is confined to `\b` tests on
`next`. -/
inductive REMatch : RE → Option Char → List Char → Option Char → Option Char → Prop where
  | epsM (prev next) : REMatch RE.eps prev [] prev next
  | clsM {p : Char → Bool} {c} (prev next) : p c = true →
      REMatch (RE.cls p) prev [c] (some c) next
  | litM {s prev m p'} (next) : LitM (fun a b => a == b) s prev m p' →
      REMatch (RE.lit s) prev m p' next
  | litCIM {s prev m p'} (next) : LitM charEqCI s prev m p' →
      REMatch (RE.litCI s) prev m p' next
  | catM {a b prev m1 p1 m2 p2 next} :
      REMatch a prev m1 p1 (nextOf m2 next) → REMatch b p1 m2 p2 next →
      REMatch (RE.cat a b) prev (m1 ++ m2) p2 next
  | altLM {a prev m p' next} (b) : REMatch a prev m p' next →
      REMatch (RE.alt a b) prev m p' next
  | altRM {b prev m p' next} (a) : REMatch b prev m p' next →
      REMatch (RE.alt a b) prev m p' next
  | optSM {a prev m p' next} : REMatch a prev m p' next →
      REMatch (RE.opt a) prev m p' next
  | optNM (a prev next) : REMatch (RE.opt a) prev [] prev next
  | starNM (p prev next) : REMatch (RE.starCls p) prev [] prev next
  | starCM {p : Char → Bool} {c prev m p' next} : p c = true →
      REMatch (RE.starCls p) (some c) m p' next →
      REMatch (RE.starCls p) prev (c :: m) p' next
  | plusM {p : Char → Bool} {c prev m p' next} : p c = true →
      REMatch (RE.starCls p) (some c) m p' next →
      REMatch (RE.plusCls p) prev (c :: m) p' next
  | bndM {prev next} : wordBoundary prev next = true →
      REMatch RE.bAssert prev [] prev next

/-- `lastOpt` peels the first consumed character. -/
theorem lastOpt_cons (prev : Option Char) (c : Char) (m : List Char) :
    lastOpt prev (c :: m) = lastOpt (some c) m := by
  cases m with
  | nil => rfl
  | cons x xs =>
    simp only [lastOpt, List.getLast?_cons_cons]
    cases h : (x :: xs).getLast? with
    | some d => rfl
    | none => simp at h

/-- `lastOpt` over an append threads through. -/
theorem lastOpt_append (prev : Option Char) (m1 m2 : List Char) :
    lastOpt prev (m1 ++ m2) = lastOpt (lastOpt prev m1) m2 := by
  induction m1 generalizing prev with
  | nil => rfl
  | cons c cs ih => rw [List.cons_append, lastOpt_cons, ih, lastOpt_cons]

/-- The final previous-character of a match is its last character. -/
theorem REMatch_lastOpt {re prev m p' next} (h : REMatch re prev m p' next) :
    p' = lastOpt prev m := by
  induction h with
  | epsM => rfl
  | clsM => rfl
  | litM next hl =>
    clear next
    induction hl with
    | nil => rfl
    | cons hab hl ih => rw [lastOpt_cons]; exact ih
  | litCIM next hl =>
    clear next
    induction hl with
    | nil => rfl
    | cons hab hl ih => rw [lastOpt_cons]; exact ih
  | catM h1 h2 ih1 ih2 => rw [lastOpt_append, ← ih1, ← ih2]
  | altLM _ _ ih => exact ih
  | altRM _ _ ih => exact ih
  | optSM _ ih => exact ih
  | optNM => rfl
  | starNM => rfl
  | starCM hc h ih => rw [lastOpt_cons]; exact ih
  | plusM hc h ih => rw [lastOpt_cons]; exact ih
  | bndM => rfl

/-- The head of `m ++ rest` in terms of `nextOf`. -/
theorem head_append_eq_nextOf (m rest : List Char) :
    (m ++ rest).head? = nextOf m rest.head? := by
  cases m <;> rfl

/-- Soundness of `litHere` for `LitM`. -/
theorem litHere_sound (eq : Char → Char → Bool) :
    ∀ (s : List Char) (prev : Option Char) (l : List Char) (p' : Option Char)
      (r : List Char), litHere eq s prev l = some (p', r) →
      ∃ m, l = m ++ r ∧ LitM eq s prev m p' := by
  intro s
  induction s with
  | nil =>
    intro prev l p' r h
    simp only [litHere, Option.some_inj, Prod.mk.injEq] at h
    exact ⟨[], by simp [h.2], h.1 ▸ LitM.nil prev⟩
  | cons a as ih =>
    intro prev l p' r h
    cases l with
    | nil => simp [litHere] at h
    | cons c cs =>
      simp only [litHere] at h
      split at h
      · obtain ⟨m, hm, hlm⟩ := ih (some c) cs p' r h
        rename_i hac
        exact ⟨c :: m, by simp [hm], LitM.cons hac hlm⟩
      · exact absurd h (by simp)

/-- Soundness of the greedy star scanner. -/
theorem starGo_sound (p : Char → Bool) :
    ∀ (l : List Char) (prev : Option Char) k res,
      starGo p prev l k = some res →
      ∃ m rest p', l = m ++ rest ∧ REMatch (RE.starCls p) prev m p' rest.head? ∧
        k p' rest = some res := by
  intro l
  induction l with
  | nil =>
    intro prev k res h
    exact ⟨[], [], prev, rfl, REMatch.starNM p prev none, h⟩
  | cons c cs ih =>
    intro prev k res h
    simp only [starGo] at h
    split at h
    · rename_i hp
      cases hs : starGo p (some c) cs k with
      | some r =>
        rw [hs] at h
        obtain ⟨m, rest, p', hcs, hm, hk⟩ := ih (some c) k r hs
        exact ⟨c :: m, rest, p', by simp [hcs], REMatch.starCM hp hm,
          by rw [hk]; exact h⟩
      | none =>
        rw [hs] at h
        exact ⟨[], c :: cs, prev, rfl, REMatch.starNM p prev _, h⟩
    · exact ⟨[], c :: cs, prev, rfl, REMatch.starNM p prev _, h⟩

/-- Soundness of the CPS matcher: a successful run splits the text into a
relationally matched region and a remainder accepted by the
continuation. -/
theorem reM_sound :
    ∀ (re : RE) (prev : Option Char) (l : List Char) k res,
      reM re prev l k = some res →
      ∃ m rest p', l = m ++ rest ∧ REMatch re prev m p' rest.head? ∧
        k p' rest = some res := by
  intro re
  induction re with
  | eps =>
    intro prev l k res h
    exact ⟨[], l, prev, rfl, REMatch.epsM prev _, h⟩
  | cls p =>
    intro prev l k res h
    cases l with
    | nil => simp [reM] at h
    | cons c cs =>
      simp only [reM] at h
      split at h
      · rename_i hp
        exact ⟨[c], cs, some c, rfl, REMatch.clsM prev _ hp, h⟩
      · exact absurd h (by simp)
  | lit s =>
    intro prev l k res h
    simp only [reM] at h
    cases hl : litHere (fun a b => a == b) s prev l with
    | none => rw [hl] at h; exact absurd h (by simp)
    | some pr =>
      rw [hl] at h
      obtain ⟨m, hm, hlm⟩ := litHere_sound _ s prev l pr.1 pr.2 (by rw [hl])
      exact ⟨m, pr.2, pr.1, hm, REMatch.litM _ hlm, h⟩
  | litCI s =>
    intro prev l k res h
    simp only [reM] at h
    cases hl : litHere charEqCI s prev l with
    | none => rw [hl] at h; exact absurd h (by simp)
    | some pr =>
      rw [hl] at h
      obtain ⟨m, hm, hlm⟩ := litHere_sound _ s prev l pr.1 pr.2 (by rw [hl])
      exact ⟨m, pr.2, pr.1, hm, REMatch.litCIM _ hlm, h⟩
  | cat a b iha ihb =>
    intro prev l k res h
    simp only [reM] at h
    obtain ⟨m1, rest1, p1, hl1, hm1, hk1⟩ := iha prev l _ res h
    obtain ⟨m2, rest, p2, hrest1, hm2, hk2⟩ := ihb p1 rest1 k res hk1
    refine ⟨m1 ++ m2, rest, p2, by simp [hl1, hrest1], ?_, hk2⟩
    refine REMatch.catM ?_ hm2
    rw [← head_append_eq_nextOf, ← hrest1]
    exact hm1
  | alt a b iha ihb =>
    intro prev l k res h
    simp only [reM] at h
    cases ha : reM a prev l k with
    | some r =>
      rw [ha] at h
      obtain ⟨m, rest, p', hl, hm, hk⟩ := iha prev l k r ha
      exact ⟨m, rest, p', hl, REMatch.altLM b hm, by rw [hk]; exact h⟩
    | none =>
      rw [ha] at h
      obtain ⟨m, rest, p', hl, hm, hk⟩ := ihb prev l k res h
      exact ⟨m, rest, p', hl, REMatch.altRM a hm, hk⟩
  | opt a iha =>
    intro prev l k res h
    simp only [reM] at h
    cases ha : reM a prev l k with
    | some r =>
      rw [ha] at h
      obtain ⟨m, rest, p', hl, hm, hk⟩ := iha prev l k r ha
      exact ⟨m, rest, p', hl, REMatch.optSM hm, by rw [hk]; exact h⟩
    | none =>
      rw [ha] at h
      exact ⟨[], l, prev, rfl, REMatch.optNM a prev _, h⟩
  | starCls p =>
    intro prev l k res h
    exact starGo_sound p l prev k res h
  | plusCls p =>
    intro prev l k res h
    cases l with
    | nil => simp [reM] at h
    | cons c cs =>
      simp only [reM] at h
      split at h
      · rename_i hp
        obtain ⟨m, rest, p', hcs, hm, hk⟩ := starGo_sound p cs (some c) k res h
        exact ⟨c :: m, rest, p', by simp [hcs], REMatch.plusM hp hm, hk⟩
      · exact absurd h (by simp)
  | bAssert =>
    intro prev l k res h
    simp only [reM] at h
    split at h
    · rename_i hb
      exact ⟨[], l, prev, rfl, REMatch.bndM hb, h⟩
    · exact absurd h (by simp)

/-- Completeness of `litHere` (it is deterministic). -/
theorem litHere_complete (eq : Char → Char → Bool) {s prev m p'}
    (h : LitM eq s prev m p') :
    ∀ rest, litHere eq s prev (m ++ rest) = some (p', rest) := by
  induction h with
  | nil => intro rest; rfl
  | cons hab hl ih =>
    intro rest
    simp only [List.cons_append, litHere]
    rw [if_pos (by exact hab)]
    exact ih rest

/-- A continuation success survives `starGo`. -/
theorem starGo_keeps (p : Char → Bool) (prev : Option Char) (l : List Char) k
    (h : k prev l ≠ none) : starGo p prev l k ≠ none := by
  cases l with
  | nil => exact h
  | cons c cs =>
    simp only [starGo]
    split
    · cases hs : starGo p (some c) cs k with
      | some r => simp
      | none => simpa using h
    · exact h

/-- Completeness of the CPS matcher: any relational match whose remainder
the continuation accepts is found (the matcher may find a different,
preferred match, but it does not fail). -/
theorem reM_complete {re prev m p' next} (h : REMatch re prev m p' next) :
    ∀ rest k, next = rest.head? → k p' rest ≠ none →
      reM re prev (m ++ rest) k ≠ none := by
  induction h with
  | epsM prev next => intro rest k hn hk; exact hk
  | clsM prev next hp =>
    intro rest k hn hk
    simpa [reM, hp] using hk
  | litM next hl =>
    intro rest k hn hk
    simp only [reM, litHere_complete _ hl rest]
    exact hk
  | litCIM next hl =>
    intro rest k hn hk
    simp only [reM, litHere_complete _ hl rest]
    exact hk
  | catM h1 h2 ih1 ih2 =>
    intro rest k hn hk
    rename_i a b prev' m1 p1 m2 p2 next'
    rw [List.append_assoc]
    simp only [reM]
    refine ih1 (m2 ++ rest) _ ?_ ?_
    · rw [head_append_eq_nextOf, hn]
    · exact ih2 rest k hn hk
  | altLM b h ih =>
    rename_i a0 prev0 m0 p0 next0
    intro rest k hn hk
    simp only [reM]
    cases ha : reM a0 prev0 (m0 ++ rest) k with
    | some r => simp [ha]
    | none => exact absurd ha (ih rest k hn hk)
  | altRM a h ih =>
    rename_i b0 prev0 m0 p0 next0
    intro rest k hn hk
    simp only [reM]
    cases ha : reM a prev0 (m0 ++ rest) k with
    | some r => simp [ha]
    | none => simpa using ih rest k hn hk
  | optSM h ih =>
    rename_i a0 prev0 m0 p0 next0
    intro rest k hn hk
    simp only [reM]
    cases ha : reM a0 prev0 (m0 ++ rest) k with
    | some r => simp [ha]
    | none => exact absurd ha (ih rest k hn hk)
  | optNM a prev next =>
    intro rest k hn hk
    simp only [List.nil_append, reM]
    cases ha : reM a prev rest k with
    | some r => simp [ha]
    | none => simpa using hk
  | starNM p prev next =>
    intro rest k hn hk
    exact starGo_keeps p prev rest k hk
  | starCM hp h ih =>
    rename_i p0 c0 prev0 m0 pf0 next0
    intro rest k hn hk
    simp only [List.cons_append, reM, starGo]
    rw [if_pos hp]
    cases hs : starGo p0 (some c0) (m0 ++ rest) k with
    | some r => simp [hs]
    | none => exact absurd hs (by simpa [reM] using ih rest k hn hk)
  | plusM hp h ih =>
    intro rest k hn hk
    simp only [List.cons_append, reM]
    rw [if_pos hp]
    simpa [reM] using ih rest k hn hk
  | bndM hb =>
    intro rest k hn hk
    simp only [List.nil_append, reM]
    rw [if_pos (by rw [← hn]; exact hb)]
    exact hk

/-- A match only depends on the following context through the word-class
of the next character. -/
theorem REMatch_changeNext {re prev m p' next1 next2}
    (hcls : isWordOpt next1 = isWordOpt next2) (h : REMatch re prev m p' next1) :
    REMatch re prev m p' next2 := by
  induction h generalizing next2 with
  | epsM prev next => exact REMatch.epsM prev next2
  | clsM prev next hp => exact REMatch.clsM prev next2 hp
  | litM next hl => exact REMatch.litM next2 hl
  | litCIM next hl => exact REMatch.litCIM next2 hl
  | catM h1 h2 ih1 ih2 =>
    rename_i a b prev' m1 p1 m2 p2 next'
    refine REMatch.catM ?_ (ih2 hcls)
    cases m2 with
    | nil => exact ih1 (by simpa [nextOf] using hcls)
    | cons c cs => exact ih1 (by simp [nextOf])
  | altLM b h ih => exact REMatch.altLM b (ih hcls)
  | altRM a h ih => exact REMatch.altRM a (ih hcls)
  | optSM h ih => exact REMatch.optSM (ih hcls)
  | optNM a prev next => exact REMatch.optNM a prev next2
  | starNM p prev next => exact REMatch.starNM p prev next2
  | starCM hp h ih => exact REMatch.starCM hp (ih hcls)
  | plusM hp h ih => exact REMatch.plusM hp (ih hcls)
  | bndM hb =>
    refine REMatch.bndM ?_
    simpa [wordBoundary, hcls] using hb

/-- `lastOpt` ignores the incoming character on non-empty input. -/
theorem lastOpt_congr {m : List Char} (hm : m ≠ []) (p1 p2 : Option Char) :
    lastOpt p1 m = lastOpt p2 m := by
  cases m with
  | nil => exact absurd rfl hm
  | cons c cs => rw [lastOpt_cons, lastOpt_cons]

/-- The final previous-character of a literal match is its last
character. -/
theorem LitM_lastOpt {eq : Char → Char → Bool} {s prev m p'}
    (h : LitM eq s prev m p') : p' = lastOpt prev m := by
  induction h with
  | nil => rfl
  | cons hab hl ih => rw [lastOpt_cons]; exact ih

/-- A match only depends on the preceding context through the word-class
of the previous character. -/
theorem REMatch_changePrev {re prev1 prev2 m p' next}
    (hcls : isWordOpt prev1 = isWordOpt prev2) (h : REMatch re prev1 m p' next) :
    REMatch re prev2 m (lastOpt prev2 m) next := by
  induction h generalizing prev2 with
  | epsM prev next => exact REMatch.epsM prev2 next
  | clsM prev next hp => exact REMatch.clsM prev2 next hp
  | litM next hl =>
    refine REMatch.litM next ?_
    cases hl with
    | nil => exact LitM.nil prev2
    | cons hab hl2 =>
      rw [lastOpt_cons, ← LitM_lastOpt hl2]
      exact LitM.cons hab hl2
  | litCIM next hl =>
    refine REMatch.litCIM next ?_
    cases hl with
    | nil => exact LitM.nil prev2
    | cons hab hl2 =>
      rw [lastOpt_cons, ← LitM_lastOpt hl2]
      exact LitM.cons hab hl2
  | catM h1 h2 ih1 ih2 =>
    rename_i a b prev' m1 p1 m2 p2 next'
    by_cases hm1 : m1 = []
    · subst hm1
      have hp1 : p1 = prev' := by
        have := REMatch_lastOpt h1
        simpa [lastOpt] using this
      subst hp1
      have hb2 := ih2 hcls
      have ha2 := ih1 hcls
      simpa [lastOpt] using REMatch.catM ha2 hb2
    · have ha2 := ih1 hcls
      have hp1 : p1 = lastOpt prev' m1 := REMatch_lastOpt h1
      have hkey : lastOpt prev2 m1 = p1 := by
        rw [hp1]; exact lastOpt_congr hm1 prev2 prev'
      rw [hkey] at ha2
      have hz := REMatch.catM ha2 h2
      have hfin : lastOpt prev2 (m1 ++ m2) = p2 := by
        rw [lastOpt_append, hkey]
        exact (REMatch_lastOpt h2).symm
      rw [hfin]
      exact hz
  | altLM b h ih => exact REMatch.altLM b (ih hcls)
  | altRM a h ih => exact REMatch.altRM a (ih hcls)
  | optSM h ih => exact REMatch.optSM (ih hcls)
  | optNM a prev next => exact REMatch.optNM a prev2 next
  | starNM p prev next => exact REMatch.starNM p prev2 next
  | starCM hp h ih =>
    rw [lastOpt_cons]
    rw [show lastOpt (some _) _ = _ from (REMatch_lastOpt h).symm]
    exact REMatch.starCM hp h
  | plusM hp h ih =>
    rw [lastOpt_cons]
    rw [show lastOpt (some _) _ = _ from (REMatch_lastOpt h).symm]
    exact REMatch.plusM hp h
  | bndM hb =>
    refine REMatch.bndM ?_
    simpa [wordBoundary, hcls] using hb

/-! ### Syntactic pattern properties

Decidable or structural predicates on `RE` terms, with their
meaning for `REMatch`: a pattern can avoid a concrete character, must
consume at least one character, must contain a character of a given
class, and begins/ends with a `\b` assertion. -/

/-- `avoidsB x re`: no match of `re` can contain the character `x`. -/
def avoidsB (x : Char) : RE → Bool
  | RE.eps => true
  | RE.cls p => !p x
  | RE.lit s => s.all (fun d => d != x)
  | RE.litCI s => s.all (fun d => !charEqCI d x)
  | RE.cat a b => avoidsB x a && avoidsB x b
  | RE.alt a b => avoidsB x a && avoidsB x b
  | RE.opt a => avoidsB x a
  | RE.starCls p => !p x
  | RE.plusCls p => !p x
  | RE.bAssert => true

/-- Each character consumed by a literal match is related to some literal
character. -/
theorem LitM_mem_right {eq : Char → Char → Bool} {s prev m p'}
    (h : LitM eq s prev m p') {c} (hc : c ∈ m) : ∃ a ∈ s, eq a c = true := by
  induction h with
  | nil => simp at hc
  | cons hab hl ih =>
    rcases List.mem_cons.mp hc with hc | hc
    · subst hc
      exact ⟨_, by simp, hab⟩
    · obtain ⟨a, ha, hac⟩ := ih hc
      exact ⟨a, by simp [ha], hac⟩

/-- Each literal character relates to some character consumed by a
literal match. -/
theorem LitM_mem_left {eq : Char → Char → Bool} {s prev m p'}
    (h : LitM eq s prev m p') {a} (ha : a ∈ s) : ∃ c ∈ m, eq a c = true := by
  induction h with
  | nil => simp at ha
  | cons hab hl ih =>
    rcases List.mem_cons.mp ha with ha | ha
    · subst ha
      exact ⟨_, by simp, hab⟩
    · obtain ⟨c, hc, hac⟩ := ih ha
      exact ⟨c, by simp [hc], hac⟩

/-- Soundness of `avoidsB`. -/
theorem REMatch_avoids {x : Char} {re prev m p' next}
    (hav : avoidsB x re = true) (h : REMatch re prev m p' next) : x ∉ m := by
  induction h with
  | epsM => simp
  | clsM prev next hp =>
    simp only [avoidsB, Bool.not_eq_true'] at hav
    simp only [List.mem_singleton]
    intro hx
    rw [hx] at hav
    rw [hav] at hp
    exact Bool.false_ne_true hp
  | litM next hl =>
    simp only [avoidsB, List.all_eq_true] at hav
    intro hx
    obtain ⟨a, ha, hax⟩ := LitM_mem_right hl hx
    have := hav a ha
    rw [beq_iff_eq] at hax
    subst hax
    simp at this
  | litCIM next hl =>
    simp only [avoidsB, List.all_eq_true] at hav
    intro hx
    obtain ⟨a, ha, hax⟩ := LitM_mem_right hl hx
    have := hav a ha
    rw [hax] at this
    simp at this
  | catM h1 h2 ih1 ih2 =>
    simp only [avoidsB, Bool.and_eq_true] at hav
    simp only [List.mem_append]
    rintro (hx | hx)
    · exact ih1 hav.1 hx
    · exact ih2 hav.2 hx
  | altLM b h ih =>
    simp only [avoidsB, Bool.and_eq_true] at hav
    exact ih hav.1
  | altRM a h ih =>
    simp only [avoidsB, Bool.and_eq_true] at hav
    exact ih hav.2
  | optSM h ih => exact ih hav
  | optNM => simp
  | starNM => simp
  | starCM hp h ih =>
    simp only [avoidsB, Bool.not_eq_true'] at hav
    simp only [List.mem_cons]
    rintro (hx | hx)
    · subst hx; rw [hav] at hp; exact Bool.false_ne_true hp
    · exact ih (by simp [avoidsB, hav]) hx
  | plusM hp h ih =>
    simp only [avoidsB, Bool.not_eq_true'] at hav
    simp only [List.mem_cons]
    rintro (hx | hx)
    · subst hx; rw [hav] at hp; exact Bool.false_ne_true hp
    · exact ih (by simp [avoidsB, hav]) hx
  | bndM => simp

/-- `consumesB re`: every match of `re` is non-empty. -/
def consumesB : RE → Bool
  | RE.eps => false
  | RE.cls _ => true
  | RE.lit s => !s.isEmpty
  | RE.litCI s => !s.isEmpty
  | RE.cat a b => consumesB a || consumesB b
  | RE.alt a b => consumesB a && consumesB b
  | RE.opt _ => false
  | RE.starCls _ => false
  | RE.plusCls _ => true
  | RE.bAssert => false

/-- Soundness of `consumesB`. -/
theorem REMatch_consumes {re prev m p' next}
    (hc : consumesB re = true) (h : REMatch re prev m p' next) : m ≠ [] := by
  induction h with
  | epsM => simp [consumesB] at hc
  | clsM => simp
  | litM next hl =>
    cases hl with
    | nil => simp [consumesB] at hc
    | cons hab hl2 => simp
  | litCIM next hl =>
    cases hl with
    | nil => simp [consumesB] at hc
    | cons hab hl2 => simp
  | catM h1 h2 ih1 ih2 =>
    simp only [consumesB, Bool.or_eq_true] at hc
    rcases hc with hc | hc
    · simp [ih1 hc]
    · simp [ih2 hc]
  | altLM b h ih =>
    simp only [consumesB, Bool.and_eq_true] at hc
    exact ih hc.1
  | altRM a h ih =>
    simp only [consumesB, Bool.and_eq_true] at hc
    exact ih hc.2
  | optSM h ih => simp [consumesB] at hc
  | optNM => simp [consumesB] at hc
  | starNM => simp [consumesB] at hc
  | starCM hp h ih => simp
  | plusM hp h ih => simp
  | bndM => simp [consumesB] at hc

/-- `MustHave P re`: every match of `re` contains a character of class
`P`. -/
def MustHave (P : Char → Bool) : RE → Prop
  | RE.eps => False
  | RE.cls q => ∀ c, q c = true → P c = true
  | RE.lit s => ∃ d ∈ s, P d = true
  | RE.litCI s => ∃ d ∈ s, ∀ c, charEqCI d c = true → P c = true
  | RE.cat a b => MustHave P a ∨ MustHave P b
  | RE.alt a b => MustHave P a ∧ MustHave P b
  | RE.opt _ => False
  | RE.starCls _ => False
  | RE.plusCls q => ∀ c, q c = true → P c = true
  | RE.bAssert => False

/-- Soundness of `MustHave`. -/
theorem REMatch_mustHave {P : Char → Bool} {re prev m p' next}
    (hmh : MustHave P re) (h : REMatch re prev m p' next) :
    ∃ c ∈ m, P c = true := by
  induction h with
  | epsM => exact absurd hmh id
  | clsM prev next hp =>
    rename_i p c
    exact ⟨c, by simp, hmh c hp⟩
  | litM next hl =>
    obtain ⟨d, hd, hPd⟩ := hmh
    obtain ⟨c, hc, hdc⟩ := LitM_mem_left hl hd
    rw [beq_iff_eq] at hdc
    exact ⟨c, hc, hdc ▸ hPd⟩
  | litCIM next hl =>
    obtain ⟨d, hd, hPd⟩ := hmh
    obtain ⟨c, hc, hdc⟩ := LitM_mem_left hl hd
    exact ⟨c, hc, hPd c hdc⟩
  | catM h1 h2 ih1 ih2 =>
    rcases hmh with hmh | hmh
    · obtain ⟨c, hc, hPc⟩ := ih1 hmh
      exact ⟨c, by simp [hc], hPc⟩
    · obtain ⟨c, hc, hPc⟩ := ih2 hmh
      exact ⟨c, by simp [hc], hPc⟩
  | altLM b h ih => exact ih hmh.1
  | altRM a h ih => exact ih hmh.2
  | optSM h ih => exact absurd hmh id
  | optNM => exact absurd hmh id
  | starNM => exact absurd hmh id
  | starCM hp h ih => exact absurd hmh id
  | plusM hp h ih =>
    rename_i p c prev' m' pf' next'
    exact ⟨c, by simp, hmh c hp⟩
  | bndM => exact absurd hmh id

/-- `startsB re`: `re` begins with a `\b` assertion. -/
def startsB : RE → Prop
  | RE.cat a _ => startsB a
  | RE.bAssert => True
  | _ => False

/-- `endsB re`: `re` ends with a `\b` assertion. -/
def endsB : RE → Prop
  | RE.cat _ b => endsB b
  | RE.bAssert => True
  | _ => False

/-- `nextOf` over an append. -/
theorem nextOf_append (m1 m2 : List Char) (next : Option Char) :
    nextOf (m1 ++ m2) next = nextOf m1 (nextOf m2 next) := by
  cases m1 <;> rfl

/-- A `\b`-headed pattern asserts a word boundary at the match start. -/
theorem REMatch_startsB {re prev m p' next} (hs : startsB re)
    (h : REMatch re prev m p' next) :
    wordBoundary prev (nextOf m next) = true := by
  induction h with
  | catM h1 h2 ih1 ih2 =>
    rw [nextOf_append]
    exact ih1 hs
  | bndM hb => exact hb
  | epsM => exact absurd hs id
  | clsM _ _ _ => exact absurd hs id
  | litM _ _ => exact absurd hs id
  | litCIM _ _ => exact absurd hs id
  | altLM _ _ _ => exact absurd hs id
  | altRM _ _ _ => exact absurd hs id
  | optSM _ _ => exact absurd hs id
  | optNM => exact absurd hs id
  | starNM => exact absurd hs id
  | starCM _ _ _ => exact absurd hs id
  | plusM _ _ _ => exact absurd hs id

/-- A `\b`-terminated pattern asserts a word boundary at the match
end. -/
theorem REMatch_endsB {re prev m p' next} (he : endsB re)
    (h : REMatch re prev m p' next) :
    wordBoundary p' next = true := by
  induction h with
  | catM h1 h2 ih1 ih2 => exact ih2 he
  | bndM hb => exact hb
  | epsM => exact absurd he id
  | clsM _ _ _ => exact absurd he id
  | litM _ _ => exact absurd he id
  | litCIM _ _ => exact absurd he id
  | altLM _ _ _ => exact absurd he id
  | altRM _ _ _ => exact absurd he id
  | optSM _ _ => exact absurd he id
  | optNM => exact absurd he id
  | starNM => exact absurd he id
  | starCM _ _ _ => exact absurd he id
  | plusM _ _ _ => exact absurd he id

/-! ### The chunk structure of a global replace

`scanReplaceF` produces an interleaving of copied characters (where the
pattern failed) and placeholder insertions (where it matched); `Chunks`
records that structure relationally, so properties of the output can be
proved by induction on it. -/

/-- Splitting an equality of appends: one side's first part is a prefix
of the other's. -/
theorem append_split {α : Type} {a b m r : List α} (h : a ++ b = m ++ r) :
    (∃ k, a = m ++ k ∧ r = k ++ b) ∨ (∃ k, m = a ++ k ∧ b = k ++ r) := by
  induction a generalizing m with
  | nil =>
    exact Or.inr ⟨m, rfl, h⟩
  | cons x a' ih =>
    cases m with
    | nil =>
      exact Or.inl ⟨x :: a', rfl, h.symm⟩
    | cons y m' =>
      simp only [List.cons_append, List.cons.injEq] at h
      obtain ⟨hxy, h2⟩ := h
      rcases ih h2 with ⟨k, hk1, hk2⟩ | ⟨k, hk1, hk2⟩
      · exact Or.inl ⟨k, by rw [hxy, hk1]; rfl, hk2⟩
      · exact Or.inr ⟨k, by rw [hxy, hk1]; rfl, hk2⟩

/-- The last element is a member. -/
theorem mem_of_getLast? {α : Type} {l : List α} {a : α}
    (h : l.getLast? = some a) : a ∈ l := by
  induction l with
  | nil => simp at h
  | cons x xs ih =>
    cases xs with
    | nil =>
      simp only [List.getLast?_singleton, Option.some_inj] at h
      simp [h]
    | cons y ys =>
      rw [List.getLast?_cons_cons] at h
      exact List.mem_cons_of_mem x (ih h)

/-- A successful anchored attempt yields a relational match of the
consumed prefix. -/
theorem tryMatchAt_some_rematch {pat : RE} {prev : Option Char}
    {l : List Char} {p' : Option Char} {r : List Char}
    (h : tryMatchAt pat prev l = some (p', r)) :
    ∃ m, l = m ++ r ∧ REMatch pat prev m p' r.head? := by
  obtain ⟨m, rest, p'', hl, hm, hk⟩ :=
    reM_sound pat prev l (fun a b => some (a, b)) (p', r) h
  simp only [Option.some_inj, Prod.mk.injEq] at hk
  obtain ⟨h1, h2⟩ := hk
  subst h1; subst h2
  exact ⟨m, hl, hm⟩

/-- A relational match makes the anchored attempt succeed. -/
theorem rematch_tryMatchAt {pat : RE} {prev : Option Char}
    {m : List Char} {p' : Option Char} {w : List Char}
    (h : REMatch pat prev m p' w.head?) :
    (tryMatchAt pat prev (m ++ w)).isSome = true := by
  have hk : (fun (a : Option Char) (b : List Char) => some (a, b)) p' w ≠ none := by
    simp
  have := reM_complete h w (fun a b => some (a, b)) rfl hk
  rw [Option.isSome_iff_ne_none]
  exact this

/-- A `\b`-headed pattern cannot match where no word boundary stands. -/
theorem tryMatchAt_startsB_false {pat : RE} (hs : startsB pat)
    {prev : Option Char} {l : List Char}
    (hb : wordBoundary prev l.head? = false) :
    (tryMatchAt pat prev l).isSome = false := by
  cases h : tryMatchAt pat prev l with
  | none => rfl
  | some pr =>
    obtain ⟨p', r⟩ := pr
    obtain ⟨m, hl, hm⟩ := tryMatchAt_some_rematch h
    have hbd := REMatch_startsB hs hm
    rw [← head_append_eq_nextOf, ← hl] at hbd
    rw [hbd] at hb
    exact absurd hb (by simp)

/-- A pattern whose matches must contain a marked character cannot match
the empty text. -/
theorem tryMatchAt_nil_mustHave {P : Char → Bool} {pat : RE}
    (hmh : MustHave P pat) (prev : Option Char) :
    (tryMatchAt pat prev ([] : List Char)).isSome = false := by
  cases h : tryMatchAt pat prev ([] : List Char) with
  | none => rfl
  | some pr =>
    obtain ⟨p', r⟩ := pr
    obtain ⟨m, hl, hm⟩ := tryMatchAt_some_rematch h
    have hme : m = [] := by
      cases m with
      | nil => rfl
      | cons x xs => simp at hl
    subst hme
    obtain ⟨c, hc, _⟩ := REMatch_mustHave hmh hm
    simp at hc

/-- A consuming pattern strictly shortens the remainder. -/
theorem tryMatchAt_consumes_lt {pat : RE} (hc : consumesB pat = true)
    {prev : Option Char} {l : List Char} {p' : Option Char} {r : List Char}
    (h : tryMatchAt pat prev l = some (p', r)) : r.length < l.length := by
  obtain ⟨m, hl, hm⟩ := tryMatchAt_some_rematch h
  have hne := REMatch_consumes hc hm
  have : 0 < m.length := List.length_pos.mpr hne
  rw [hl, List.length_append]
  omega

/-- The copy/replace chunk structure of a `/g` replace: at each scan
position either the pattern fails and the character is copied, or it
matches and the placeholder is emitted, resuming at the remainder. -/
inductive Chunks (q : RE) (ph : List Char) : Option Char → List Char → List Char → Prop where
  | nil (prev) : Chunks q ph prev [] []
  | copy {prev c cs t} : tryMatchAt q prev (c :: cs) = none →
      Chunks q ph (some c) cs t → Chunks q ph prev (c :: cs) (c :: t)
  | repl {prev c cs p' r t} : tryMatchAt q prev (c :: cs) = some (p', r) →
      Chunks q ph p' r t → Chunks q ph prev (c :: cs) (ph ++ t)

/-- With sufficient fuel, the fuelled replace realizes the chunk
structure (a consuming pattern never takes the defensive empty-match
branch). -/
theorem scanReplaceF_chunks {q : RE} {ph : List Char} (hc : consumesB q = true) :
    ∀ (fuel : Nat) (prev : Option Char) (s : List Char), s.length < fuel →
      Chunks q ph prev s (scanReplaceF q ph fuel prev s) := by
  intro fuel
  induction fuel with
  | zero => intro prev s h; omega
  | succ f ih =>
    intro prev s hlen
    cases s with
    | nil => exact Chunks.nil prev
    | cons c cs =>
      cases hm : tryMatchAt q prev (c :: cs) with
      | none =>
        simp only [scanReplaceF, hm]
        exact Chunks.copy hm (ih (some c) cs (by simp at hlen; omega))
      | some pr =>
        obtain ⟨p', r⟩ := pr
        have hlt := tryMatchAt_consumes_lt hc hm
        simp only [List.length_cons] at hlt
        simp only [scanReplaceF, hm, if_pos hlt]
        exact Chunks.repl hm (ih p' r (by simp at hlen; omega))

/-- The chunk structure of `scanReplace` itself. -/
theorem scanReplace_chunks {q : RE} {ph : List Char} (hc : consumesB q = true)
    (prev : Option Char) (s : List Char) :
    Chunks q ph prev s (scanReplace q ph prev s) :=
  scanReplaceF_chunks hc (s.length + 1) prev s (by omega)

/-- A scan that finds nothing leaves the replace as the identity. -/
theorem scanReplace_eq_self {q : RE} {ph : List Char} :
    ∀ {prev : Option Char} {s : List Char}, scanExists q prev s = false →
      scanReplace q ph prev s = s := by
  have key : ∀ (fuel : Nat) (prev : Option Char) (s : List Char),
      scanExists q prev s = false → scanReplaceF q ph fuel prev s = s := by
    intro fuel
    induction fuel with
    | zero => intro prev s h; rfl
    | succ f ih =>
      intro prev s h
      cases s with
      | nil => rfl
      | cons c cs =>
        simp only [scanExists, Bool.or_eq_false_iff] at h
        obtain ⟨h1, h2⟩ := h
        simp only [scanReplaceF]
        cases hm : tryMatchAt q prev (c :: cs) with
        | none => rw [ih (some c) cs h2]
        | some pr => rw [hm] at h1; simp at h1
  intro prev s h
  exact key (s.length + 1) prev s h

/-- A bracket-free prefix of the replace output is a prefix of the
scanned input, and the word-class of the following character is the same
on both sides, provided a word boundary stands at the prefix end (the
stage pattern begins with `\b` and its placeholder opens with `[`). -/
theorem chunks_prefix_transfer {q : RE} {ph : List Char} (hqs : startsB q)
    (hph : ph.head? = some '[') :
    ∀ {prev s t}, Chunks q ph prev s t →
    ∀ {m w : List Char}, t = m ++ w → '[' ∉ m →
      isWordOpt (lastOpt prev m) ≠ isWordOpt w.head? →
      ∃ w', s = m ++ w' ∧ isWordOpt w'.head? = isWordOpt w.head? := by
  intro prev s t hch
  induction hch with
  | nil prev =>
    intro m w ht hbr hbd
    have hm : m = [] := by
      cases m with
      | nil => rfl
      | cons x xs => simp at ht
    subst hm
    simp only [List.nil_append] at ht
    exact ⟨[], rfl, by rw [← ht]⟩
  | copy hno hch2 ih =>
    rename_i prev' c cs t₂
    intro m w ht hbr hbd
    cases m with
    | nil =>
      simp only [List.nil_append] at ht
      subst ht
      exact ⟨c :: cs, rfl, rfl⟩
    | cons c' m₁ =>
      simp only [List.cons_append, List.cons.injEq] at ht
      obtain ⟨hcc, ht2⟩ := ht
      subst hcc
      rw [lastOpt_cons] at hbd
      obtain ⟨w', hw1, hw2⟩ := ih ht2 (fun hx => hbr (List.mem_cons_of_mem _ hx)) hbd
      exact ⟨w', by rw [hw1]; rfl, hw2⟩
  | repl hm2 hch2 ih =>
    rename_i prev' c cs p'q r t₂
    intro m w ht hbr hbd
    cases hphe : ph with
    | nil => rw [hphe] at hph; simp at hph
    | cons phh pht =>
      have hphh : phh = '[' := by
        rw [hphe] at hph
        simpa using hph
      subst hphh
      cases m with
      | nil =>
        simp only [List.nil_append] at ht
        have hwh : w.head? = some '[' := by
          rw [← ht, hphe]; rfl
        rw [hwh] at hbd
        have hprevw : isWordOpt prev' = true := by
          cases hpw : isWordOpt prev' with
          | true => rfl
          | false =>
            exact absurd (by rw [hpw]; decide : isWordOpt prev' = isWordOpt (some '[')) hbd
        obtain ⟨mq, hlq, hmq⟩ := tryMatchAt_some_rematch hm2
        have hbd2 := REMatch_startsB hqs hmq
        rw [← head_append_eq_nextOf, ← hlq] at hbd2
        simp only [List.head?_cons, wordBoundary, hprevw, bne_iff_ne, ne_eq] at hbd2
        have hcw : isWordOpt (some c) = false := by
          cases hcw2 : isWordOpt (some c) with
          | false => rfl
          | true => exact absurd hcw2.symm hbd2
        exact ⟨c :: cs, rfl, by rw [hwh]; rw [List.head?_cons, hcw]; decide⟩
      | cons c' m₁ =>
        rw [hphe] at ht
        simp only [List.cons_append, List.cons.injEq] at ht
        exact absurd (ht.1 ▸ List.mem_cons_self c' m₁) hbr

/-- A scan that fails on a whole text fails on any suffix (with the
correct preceding-character context). -/
theorem scanExists_suffix {pat : RE} :
    ∀ (u : List Char) {prev : Option Char} {v : List Char},
      scanExists pat prev (u ++ v) = false →
      scanExists pat (lastOpt prev u) v = false := by
  intro u
  induction u with
  | nil => intro prev v h; exact h
  | cons c cs ih =>
    intro prev v h
    rw [List.cons_append] at h
    simp only [scanExists, Bool.or_eq_false_iff] at h
    rw [lastOpt_cons]
    exact ih h.2

/-- Scanning across a placeholder-shaped block (no marked characters,
closing with `]`): no match can start inside it, so the scan reduces to
the scan of the remainder. -/
theorem scanExists_ph_skip {pat : RE} {needCh : Char → Bool}
    (hmh : MustHave needCh pat) (hav : avoidsB ']' pat = true) :
    ∀ (a : List Char) {prev : Option Char} (b : List Char),
      a.getLast? = some ']' → (∀ c ∈ a, needCh c = false) →
      scanExists pat prev (a ++ b) = scanExists pat (lastOpt prev a) b := by
  intro a
  induction a with
  | nil => intro prev b hlast hfree; simp at hlast
  | cons x a' ih =>
    intro prev b hlast hfree
    have hnostart : (tryMatchAt pat prev (x :: a' ++ b)).isSome = false := by
      cases hm : tryMatchAt pat prev (x :: a' ++ b) with
      | none => rfl
      | some pr =>
        obtain ⟨p', r⟩ := pr
        obtain ⟨m, hl, hmm⟩ := tryMatchAt_some_rematch hm
        obtain ⟨cc, hcc, hncc⟩ := REMatch_mustHave hmh hmm
        have hbr : ']' ∉ m := REMatch_avoids hav hmm
        cases m with
        | nil => simp at hcc
        | cons mh m₁ =>
          simp only [List.cons_append, List.cons.injEq] at hl
          obtain ⟨hxm, hl2⟩ := hl
          rcases append_split hl2 with ⟨k, hk1, _⟩ | ⟨k, hk1, _⟩
          · have hsub : ∀ d ∈ mh :: m₁, d ∈ x :: a' := by
              intro d hd
              rcases List.mem_cons.mp hd with hd | hd
              · rw [hd, ← hxm]; exact List.mem_cons_self x a'
              · refine List.mem_cons_of_mem x ?_
                rw [hk1]
                exact List.mem_append_left k hd
            have := hfree cc (hsub cc hcc)
            rw [this] at hncc
            exact absurd hncc (by simp)
          · rcases List.mem_cons.mp (mem_of_getLast? hlast) with hx | hx
            · exact absurd (by rw [hx, hxm]; exact List.mem_cons_self _ _) hbr
            · refine absurd ?_ hbr
              refine List.mem_cons_of_mem mh ?_
              rw [hk1]
              exact List.mem_append_left k hx
    have hunfold : scanExists pat prev ((x :: a') ++ b) =
        ((tryMatchAt pat prev (x :: a' ++ b)).isSome ||
          scanExists pat (some x) (a' ++ b)) := rfl
    rw [hunfold, hnostart, Bool.false_or, lastOpt_cons]
    cases a' with
    | nil => rfl
    | cons y a'' =>
      rw [List.getLast?_cons_cons] at hlast
      have hfree2 : ∀ c ∈ y :: a'', needCh c = false := by
        intro c hcm
        exact hfree c (List.mem_cons_of_mem x hcm)
      exact ih b hlast hfree2

/-- A match of a bracket-avoiding, boundary-delimited pattern starting at
a copied position of the replace output transfers to the corresponding
position of the input. -/
theorem chunks_copy_transfer {q : RE} {ph : List Char} {pat : RE}
    {needCh : Char → Bool}
    (hqs : startsB q) (hph : ph.head? = some '[')
    (hpe : endsB pat) (hmh : MustHave needCh pat)
    (havL : avoidsB '[' pat = true) :
    ∀ {c cs t₂ prev2 prev},
      Chunks q ph (some c) cs t₂ →
      isWordOpt prev2 = isWordOpt prev →
      (tryMatchAt pat prev2 (c :: t₂)).isSome = true →
      (tryMatchAt pat prev (c :: cs)).isSome = true := by
  intro c cs t₂ prev2 prev hch heq hsome
  rw [Option.isSome_iff_exists] at hsome
  obtain ⟨⟨p', r⟩, hm⟩ := hsome
  obtain ⟨m, hl, hmm⟩ := tryMatchAt_some_rematch hm
  obtain ⟨cc, hcc, _⟩ := REMatch_mustHave hmh hmm
  have hmne : m ≠ [] := by
    intro hz; rw [hz] at hcc; simp at hcc
  have hbrL : '[' ∉ m := REMatch_avoids havL hmm
  cases m with
  | nil => exact absurd rfl hmne
  | cons c' m₁ =>
    simp only [List.cons_append, List.cons.injEq] at hl
    obtain ⟨hcc', ht2⟩ := hl
    subst hcc'
    have hpv : p' = lastOpt (some c) m₁ := by
      rw [REMatch_lastOpt hmm, lastOpt_cons]
    have hbd := REMatch_endsB hpe hmm
    rw [hpv] at hbd
    simp only [wordBoundary, bne_iff_ne, ne_eq] at hbd
    obtain ⟨w', hw1, hw2⟩ := chunks_prefix_transfer hqs hph hch ht2
      (fun hx => hbrL (List.mem_cons_of_mem _ hx)) hbd
    have hmm2 := REMatch_changeNext hw2.symm hmm
    have hmm3 := REMatch_changePrev heq hmm2
    have hfin := rematch_tryMatchAt hmm3
    rw [show (c :: m₁) ++ w' = c :: cs from by rw [List.cons_append, ← hw1]] at hfin
    exact hfin

/-- The word-class relation between the scan context of the replace
output and of its input: either the classes agree, or the output context
is a non-word placeholder end while the input context is a word character
— in which case the next input character is non-word, so no
boundary-headed pattern can match at that position on either side. -/
def wcInv (prev2 prev : Option Char) (s : List Char) : Prop :=
  isWordOpt prev2 = isWordOpt prev ∨
    (isWordOpt prev2 = false ∧ isWordOpt prev = true ∧ isWordOpt s.head? = false)

/-- Self-stability of a global replace: a boundary-delimited, consuming,
bracket-avoiding pattern whose matches contain a marked character finds
no match in its own output when the placeholder is bracket-wrapped and
free of marked characters. -/
theorem chunks_self_stable {q : RE} {ph : List Char} {needCh : Char → Bool}
    (hqs : startsB q) (hqe : endsB q) (hmh : MustHave needCh q)
    (havL : avoidsB '[' q = true) (havR : avoidsB ']' q = true)
    (hphh : ph.head? = some '[') (hphl : ph.getLast? = some ']')
    (hphf : ∀ c ∈ ph, needCh c = false) :
    ∀ {prev s t}, Chunks q ph prev s t →
      ∀ (prev2 : Option Char), wcInv prev2 prev s →
        scanExists q prev2 t = false := by
  intro prev s t hch
  induction hch with
  | nil prev =>
    intro prev2 hw
    have : scanExists q prev2 ([] : List Char) =
        (tryMatchAt q prev2 []).isSome := rfl
    rw [this]
    exact tryMatchAt_nil_mustHave hmh prev2
  | copy hno hch2 ih =>
    rename_i prev' c cs t₂
    intro prev2 hw
    have hunfold : scanExists q prev2 (c :: t₂) =
        ((tryMatchAt q prev2 (c :: t₂)).isSome || scanExists q (some c) t₂) := rfl
    rw [hunfold]
    have htail : scanExists q (some c) t₂ = false :=
      ih (some c) (Or.inl rfl)
    rw [htail, Bool.or_false]
    rcases hw with heq | ⟨h2f, _, hhf⟩
    · cases hsome : (tryMatchAt q prev2 (c :: t₂)).isSome with
      | false => rfl
      | true =>
        have := chunks_copy_transfer hqs hphh hqe hmh havL hch2 heq hsome
        rw [Option.isSome_iff_exists] at this
        obtain ⟨pr, hpr⟩ := this
        rw [hpr] at hno
        exact absurd hno (by simp)
    · refine tryMatchAt_startsB_false hqs ?_
      simp only [List.head?_cons] at hhf ⊢
      simp [wordBoundary, h2f, hhf]
  | repl hm2 hch2 ih =>
    rename_i prev' c cs p'q r t₂
    intro prev2 hw
    have hphne : ph ≠ [] := by
      intro hz; rw [hz] at hphh; simp at hphh
    rw [scanExists_ph_skip hmh havR ph t₂ hphl hphf]
    have hlast : lastOpt prev2 ph = some ']' := by
      simp [lastOpt, hphl]
    rw [hlast]
    refine ih (some ']') ?_
    obtain ⟨mq, hlq, hmq⟩ := tryMatchAt_some_rematch hm2
    have hbd := REMatch_endsB hqe hmq
    simp only [wordBoundary, bne_iff_ne, ne_eq] at hbd
    cases hpw : isWordOpt p'q with
    | false => exact Or.inl (by rw [hpw]; decide)
    | true =>
      refine Or.inr ⟨by decide, hpw, ?_⟩
      rw [hpw] at hbd
      cases hrw : isWordOpt r.head? with
      | false => rfl
      | true => exact absurd hrw.symm hbd

/-- Preservation: a global replace whose stage pattern is
boundary-delimited creates no new match of any other boundary-delimited,
bracket-avoiding, marked-character pattern. -/
theorem chunks_preserve {q : RE} {ph : List Char} {pat : RE}
    {needCh : Char → Bool}
    (hqs : startsB q) (hqe : endsB q)
    (hps : startsB pat) (hpe : endsB pat) (hmh : MustHave needCh pat)
    (havL : avoidsB '[' pat = true) (havR : avoidsB ']' pat = true)
    (hphh : ph.head? = some '[') (hphl : ph.getLast? = some ']')
    (hphf : ∀ c ∈ ph, needCh c = false) :
    ∀ {prev s t}, Chunks q ph prev s t →
      ∀ (prev2 : Option Char), wcInv prev2 prev s →
        scanExists pat prev s = false → scanExists pat prev2 t = false := by
  intro prev s t hch
  induction hch with
  | nil prev =>
    intro prev2 hw hp
    have : scanExists pat prev2 ([] : List Char) =
        (tryMatchAt pat prev2 []).isSome := rfl
    rw [this]
    exact tryMatchAt_nil_mustHave hmh prev2
  | copy hno hch2 ih =>
    rename_i prev' c cs t₂
    intro prev2 hw hp
    have hpunfold : scanExists pat prev' (c :: cs) =
        ((tryMatchAt pat prev' (c :: cs)).isSome ||
          scanExists pat (some c) cs) := rfl
    rw [hpunfold, Bool.or_eq_false_iff] at hp
    obtain ⟨hp1, hp2⟩ := hp
    have hunfold : scanExists pat prev2 (c :: t₂) =
        ((tryMatchAt pat prev2 (c :: t₂)).isSome ||
          scanExists pat (some c) t₂) := rfl
    rw [hunfold]
    have htail : scanExists pat (some c) t₂ = false :=
      ih (some c) (Or.inl rfl) hp2
    rw [htail, Bool.or_false]
    rcases hw with heq | ⟨h2f, _, hhf⟩
    · cases hsome : (tryMatchAt pat prev2 (c :: t₂)).isSome with
      | false => rfl
      | true =>
        have := chunks_copy_transfer hqs hphh hpe hmh havL hch2 heq hsome
        rw [this] at hp1
        exact hp1
    · refine tryMatchAt_startsB_false hps ?_
      simp only [List.head?_cons] at hhf ⊢
      simp [wordBoundary, h2f, hhf]
  | repl hm2 hch2 ih =>
    rename_i prev' c cs p'q r t₂
    intro prev2 hw hp
    obtain ⟨mq, hlq, hmq⟩ := tryMatchAt_some_rematch hm2
    have hsfx : scanExists pat p'q r = false := by
      have := scanExists_suffix mq (by rw [← hlq]; exact hp)
      rwa [← REMatch_lastOpt hmq] at this
    rw [scanExists_ph_skip hmh havR ph t₂ hphl hphf]
    have hlast : lastOpt prev2 ph = some ']' := by
      simp [lastOpt, hphl]
    rw [hlast]
    refine ih (some ']') ?_ hsfx
    have hbd := REMatch_endsB hqe hmq
    simp only [wordBoundary, bne_iff_ne, ne_eq] at hbd
    cases hpw : isWordOpt p'q with
    | false => exact Or.inl (by rw [hpw]; decide)
    | true =>
      refine Or.inr ⟨by decide, hpw, ?_⟩
      rw [hpw] at hbd
      cases hrw : isWordOpt r.head? with
      | false => rfl
      | true => exact absurd hrw.symm hbd

/-! ### The five redaction stages satisfy the transfer hypotheses

Each `redactPHI` pattern begins and ends with `\b`, always consumes at
least one character, every one of its matches contains a digit or `@`,
and no match can contain `[` or `]`; each placeholder is
bracket-wrapped and free of digits and `@`. -/

/-- The marked-character class of the PHI redaction patterns: a digit or
the `@` sign, present in every match and absent from every
placeholder. -/
def needChPHI (c : Char) : Bool := isDigitCh c || c == '@'

/-- The hypotheses of the replace-transfer lemmas, bundled per
pattern/placeholder stage. -/
structure GoodPat (needCh : Char → Bool) (q : RE) (ph : List Char) : Prop where
  hs : startsB q
  he : endsB q
  hc : consumesB q = true
  hmh : MustHave needCh q
  havL : avoidsB '[' q = true
  havR : avoidsB ']' q = true
  hphh : ph.head? = some '['
  hphl : ph.getLast? = some ']'
  hphf : ∀ c ∈ ph, needCh c = false

/-- The phone stage satisfies the transfer hypotheses. -/
theorem goodPhone : GoodPat needChPHI phoneRE ("[PHONE NUMBER]".data) :=
  ⟨trivial, trivial, by decide,
   Or.inr (Or.inl (Or.inl (fun c h => by simp [needChPHI, h]))),
   by decide, by decide, by decide, by decide, by decide⟩

/-- The email stage satisfies the transfer hypotheses. -/
theorem goodEmail : GoodPat needChPHI emailRE ("[EMAIL]".data) :=
  ⟨trivial, trivial, by decide,
   Or.inr (Or.inr (Or.inl ⟨'@', by simp, by decide⟩)),
   by decide, by decide, by decide, by decide, by decide⟩

/-- The SSN stage satisfies the transfer hypotheses. -/
theorem goodSsn : GoodPat needChPHI ssnRE ("[SSN]".data) :=
  ⟨trivial, trivial, by decide,
   Or.inr (Or.inl (Or.inl (fun c h => by simp [needChPHI, h]))),
   by decide, by decide, by decide, by decide, by decide⟩

/-- The MRN stage satisfies the transfer hypotheses. -/
theorem goodMrn : GoodPat needChPHI mrnRE ("[MEDICAL RECORD NUMBER]".data) :=
  ⟨trivial, trivial, by decide,
   Or.inr (Or.inr (Or.inr (Or.inr (Or.inr (Or.inl
     (fun c h => by simp [needChPHI, h])))))),
   by decide, by decide, by decide, by decide, by decide⟩

/-- The address stage satisfies the transfer hypotheses. -/
theorem goodAddr : GoodPat needChPHI addrRE ("[ADDRESS]".data) :=
  ⟨trivial, trivial, by decide,
   Or.inr (Or.inl (fun c h => by simp [needChPHI, h])),
   by decide, by decide, by decide, by decide, by decide⟩

/-- A stage leaves no match of its own pattern in its output. -/
theorem stage_self {needCh : Char → Bool} {q : RE} {ph : List Char}
    (hg : GoodPat needCh q ph) (s : List Char) :
    scanExists q none (scanReplace q ph none s) = false :=
  chunks_self_stable hg.hs hg.he hg.hmh hg.havL hg.havR hg.hphh hg.hphl hg.hphf
    (scanReplace_chunks hg.hc none s) none (Or.inl rfl)

/-- A stage creates no match of any other stage's pattern. -/
theorem stage_preserve {needCh : Char → Bool} {q pat : RE} {phq php : List Char}
    (hgq : GoodPat needCh q phq) (hgp : GoodPat needCh pat php)
    {s : List Char} (hp : scanExists pat none s = false) :
    scanExists pat none (scanReplace q phq none s) = false :=
  chunks_preserve hgq.hs hgq.he hgp.hs hgp.he hgp.hmh hgp.havL hgp.havR
    hgq.hphh hgq.hphl hgq.hphf
    (scanReplace_chunks hgq.hc none s) none (Or.inl rfl) hp

/-- No redaction pattern matches anywhere in the output of `redactPHI`:
each stage clears its own pattern and no later stage reintroduces a
match of an earlier one. -/
theorem redactPHI_no_match (message : String) :
    scanExists phoneRE none (redactPHI message).data = false ∧
    scanExists emailRE none (redactPHI message).data = false ∧
    scanExists ssnRE none (redactPHI message).data = false ∧
    scanExists mrnRE none (redactPHI message).data = false ∧
    scanExists addrRE none (redactPHI message).data = false := by
  have hdata : (redactPHI message).data =
      scanReplace addrRE ("[ADDRESS]".data) none
        (scanReplace mrnRE ("[MEDICAL RECORD NUMBER]".data) none
          (scanReplace ssnRE ("[SSN]".data) none
            (scanReplace emailRE ("[EMAIL]".data) none
              (scanReplace phoneRE ("[PHONE NUMBER]".data) none
                message.data)))) := rfl
  rw [hdata]
  refine ⟨?_, ?_, ?_, ?_, ?_⟩
  · exact stage_preserve goodAddr goodPhone (stage_preserve goodMrn goodPhone
      (stage_preserve goodSsn goodPhone (stage_preserve goodEmail goodPhone
        (stage_self goodPhone message.data))))
  · exact stage_preserve goodAddr goodEmail (stage_preserve goodMrn goodEmail
      (stage_preserve goodSsn goodEmail (stage_self goodEmail _)))
  · exact stage_preserve goodAddr goodSsn (stage_preserve goodMrn goodSsn
      (stage_self goodSsn _))
  · exact stage_preserve goodAddr goodMrn (stage_self goodMrn _)
  · exact stage_self goodAddr _

/-- **C3.** `redactPHI` is idempotent: running the five global PHI
replaces a second time changes nothing, because every pattern begins and
ends with `\b`, every match contains a digit or `@` and no bracket, and
the bracket-wrapped placeholders contain neither digits nor `@`, so the
first pass leaves no pattern a match and the second pass is the
identity. -/
theorem C3_redact_idempotent (message : String) :
    redactPHI (redactPHI message) = redactPHI message := by
  obtain ⟨h1, h2, h3, h4, h5⟩ := redactPHI_no_match message
  show String.mk _ = redactPHI message
  rw [scanReplace_eq_self h1, scanReplace_eq_self h2, scanReplace_eq_self h3,
    scanReplace_eq_self h4, scanReplace_eq_self h5]

end TicketHub
